import Mathlib

/-!
Verification development for the Naijanews aggregation pipeline.

The Python sources are shallowly embedded:
* strings are `String` / `List Char`;
* the two regular-expression substitutions used by `Utils.clean_text`
  (`<[^>]+>` removed, `&[a-z]+;` replaced by a space) are modelled by the
  recursive scanners `stripTags` and `subEntities`, which reproduce the
  leftmost, non-overlapping replacement order of `re.sub`;
* `str.split()` / `' '.join` / `str.strip()` are `pyWords` / `joinWords` /
  `pyStrip`;
* naive/aware `datetime` values are a record of numeric fields plus an
  awareness flag; comparing a naive with an aware value is an error, as in
  Python;
* fallible code returns `Option` / `Except`.
-/

set_option maxHeartbeats 1000000
set_option maxRecDepth 20000

/-- Scanner for the regex substitution `re.sub(r'<[^>]+>', '', text)`.
The `skip` counter carries the characters still to be consumed by a match
already recognised, which keeps the recursion structural (and hence
kernel-computable); `stripTags_cons` below recovers the direct
jump-past-the-match recurrence of `re.sub`'s left-to-right scan. -/
def stGo : Nat → List Char → List Char
  | _ + 1, [] => []
  | skip + 1, _ :: cs => stGo skip cs
  | 0, [] => []
  | 0, c :: cs =>
    if c = '<' ∧ cs.takeWhile (fun d => d ≠ '>') ≠ [] ∧
        cs.dropWhile (fun d => d ≠ '>') ≠ [] then
      stGo ((cs.takeWhile (fun d => d ≠ '>')).length + 1) cs
    else c :: stGo 0 cs

/-- Model of the regex substitution `re.sub(r'<[^>]+>', '', text)`:
scan left to right; a `<` followed by at least one non-`>` character and
then a `>` is removed together with everything through that `>`. -/
def stripTags (l : List Char) : List Char := stGo 0 l

/-- Lower-case ASCII letter, the character class `[a-z]`. -/
def isEntChar (c : Char) : Bool := 'a' ≤ c && c ≤ 'z'

/-- Scanner for `re.sub(r'&[a-z]+;', ' ', text)`, in the same
structural-`skip` style as `stGo`. -/
def seGo : Nat → List Char → List Char
  | _ + 1, [] => []
  | skip + 1, _ :: cs => seGo skip cs
  | 0, [] => []
  | 0, c :: cs =>
    if c = '&' ∧ cs.takeWhile isEntChar ≠ [] ∧
        (cs.dropWhile isEntChar).head? = some ';' then
      ' ' :: seGo ((cs.takeWhile isEntChar).length + 1) cs
    else c :: seGo 0 cs

/-- Model of the regex substitution `re.sub(r'&[a-z]+;', ' ', text)`:
scan left to right; an `&` followed by one or more lower-case letters and
a `;` is replaced (with everything through the `;`) by a single space. -/
def subEntities (l : List Char) : List Char := seGo 0 l

/-- Scanner for Python `str.split()`, in the structural-`skip` style. -/
def pwGo : Nat → List Char → List (List Char)
  | _ + 1, [] => []
  | skip + 1, _ :: cs => pwGo skip cs
  | 0, [] => []
  | 0, c :: cs =>
    if c.isWhitespace then pwGo 0 cs
    else (c :: cs.takeWhile (fun d => !d.isWhitespace)) ::
      pwGo (cs.takeWhile (fun d => !d.isWhitespace)).length cs

/-- Model of Python `str.split()` with no argument: maximal runs of
non-whitespace characters, with all whitespace discarded. -/
def pyWords (l : List Char) : List (List Char) := pwGo 0 l

/-- Model of `' '.join(words)`. -/
def joinWords : List (List Char) → List Char
  | [] => []
  | [w] => w
  | w :: ws => w ++ ' ' :: joinWords ws

/-- Model of Python `str.strip()`: remove leading and trailing whitespace. -/
def pyStrip (l : List Char) : List Char :=
  ((l.dropWhile Char.isWhitespace).reverse.dropWhile Char.isWhitespace).reverse

/-- `Utils.clean_text` (identical in `fetch-news.py` and
`fetch-news-free.py`): empty input maps to the empty string; otherwise HTML
tags are removed, entity references become spaces, whitespace is collapsed
by `' '.join(text.split())`, and the result is stripped. -/
def clean_text (s : String) : String :=
  if s = "" then ""
  else String.mk (pyStrip (joinWords (pyWords (subEntities (stripTags s.data)))))

mutual
/-- Recursive form of `joinWords ∘ pyWords`, scanning outside a word. -/
def cw : List Char → List Char
  | [] => []
  | c :: cs => if c.isWhitespace then cw cs else c :: cwIn cs
/-- Recursive form of `joinWords ∘ pyWords`, scanning inside a word:
a whitespace character ends the word and emits a single separating space
provided more words follow. -/
def cwIn : List Char → List Char
  | [] => []
  | c :: cs =>
    if c.isWhitespace then (if (cw cs).isEmpty then [] else ' ' :: cw cs)
    else c :: cwIn cs
end

/-- Model of Python `str.lower()` (ASCII fidelity). -/
def pyLower (s : String) : String := String.mk (s.data.map Char.toLower)

/-- Model of the Python substring test `needle in hay`. -/
def pyIn (needle hay : String) : Bool := decide (needle.data <:+: hay.data)

/-- Scanner for `str.replace(tgt, repl)`, in the structural-`skip`
style of `stGo`: at a position where the (non-empty) pattern is a prefix
of the rest, emit the replacement and consume the pattern. -/
def replGo (tgt repl : List Char) : Nat → List Char → List Char
  | _ + 1, [] => []
  | skip + 1, _ :: cs => replGo tgt repl skip cs
  | 0, [] => []
  | 0, c :: cs =>
    if tgt ≠ [] ∧ tgt <+: (c :: cs) then
      repl ++ replGo tgt repl (tgt.length - 1) cs
    else c :: replGo tgt repl 0 cs

/-- Model of `str.replace(tgt, repl)`: replace every non-overlapping
occurrence of `tgt`, scanning left to right.  (The sources never call
`replace` with an empty pattern, so that guard case is unreachable.) -/
def replaceAllL (tgt repl : List Char) (l : List Char) : List Char :=
  replGo tgt repl 0 l

/-- `str.replace` on `String`. -/
def pyReplace (s tgt repl : String) : String :=
  String.mk (replaceAllL tgt.data repl.data s.data)

/-- Deterministic stand-in for CPython's per-run-seeded string hash.  The
scripts use `hash(title) % 1000000` only to build opaque identifiers, so
the only property that matters is determinism within a run. -/
def pyHash (s : String) : Nat :=
  s.data.foldl (fun h c => (h * 131 + c.toNat) % 1000003) 7

/-- Model of a Python `datetime.datetime` value: the seven numeric fields,
whether the value is timezone-aware, and (for aware values) the UTC offset
in minutes. -/
structure PyDateTime where
  year : Nat
  month : Nat
  day : Nat
  hour : Nat
  minute : Nat
  second : Nat
  micro : Nat
  aware : Bool
  offMin : Int
deriving DecidableEq

/-- Gregorian leap year. -/
def isLeap (y : Nat) : Bool := (y % 4 == 0 && y % 100 != 0) || y % 400 == 0

/-- Number of days in a month. -/
def daysInMonth (y mo : Nat) : Nat :=
  if mo = 2 then (if isLeap y then 29 else 28)
  else if mo = 4 ∨ mo = 6 ∨ mo = 9 ∨ mo = 11 then 30
  else 31

/-- Field ranges of a representable `datetime` value.  Python cannot
construct a `datetime` outside these ranges. -/
def PyDateTime.Valid (t : PyDateTime) : Prop :=
  1 ≤ t.year ∧ t.year ≤ 9999 ∧ 1 ≤ t.month ∧ t.month ≤ 12 ∧
  1 ≤ t.day ∧ t.day ≤ daysInMonth t.year t.month ∧
  t.hour ≤ 23 ∧ t.minute ≤ 59 ∧ t.second ≤ 59 ∧ t.micro ≤ 999999

instance (t : PyDateTime) : Decidable t.Valid := by
  unfold PyDateTime.Valid; infer_instance

/-- Numeric key that realises Python's ordering of `datetime` values: on
the representable field ranges, lexicographic comparison of the fields
coincides with comparison of this key. -/
def dtKey (t : PyDateTime) : Nat :=
  (((((t.year * 13 + t.month) * 32 + t.day) * 24 + t.hour) * 60 + t.minute) * 60
      + t.second) * 1000000 + t.micro

/-- Model of Python's `a > b` on datetimes: comparing a naive with an
aware value raises `TypeError` (here `none`).  Two aware values would also
be compared after offset adjustment; the embedded pipelines only ever
compare against the naive `utcnow()` clock, so that case stays
field-based. -/
def pyCmpGt (a b : PyDateTime) : Option Bool :=
  if a.aware != b.aware then none else some (decide (dtKey b < dtKey a))

/-- `t - timedelta(hours=1)` on a naive datetime, with calendar borrow. -/
def subHour (t : PyDateTime) : PyDateTime :=
  if 1 ≤ t.hour then { t with hour := t.hour - 1 }
  else if 2 ≤ t.day then { t with hour := 23, day := t.day - 1 }
  else if 2 ≤ t.month then
    { t with hour := 23, month := t.month - 1, day := daysInMonth t.year (t.month - 1) }
  else { t with hour := 23, year := t.year - 1, month := 12, day := 31 }

/-- `t - timedelta(hours=k)`. -/
def subHours : Nat → PyDateTime → PyDateTime
  | 0, t => t
  | k + 1, t => subHours k (subHour t)

/-- Days from the civil epoch 1970-01-01 (Hinnant's algorithm); used to
model `timedelta` differences between datetimes. -/
def daysFromCivil (y mo d : Nat) : Int :=
  let yAdj : Int := (y : Int) - (if mo ≤ 2 then 1 else 0)
  let era : Int := yAdj.fdiv 400
  let yoe : Int := yAdj - era * 400
  let mp : Int := ((mo : Int) + 9) % 12
  let doy : Int := (153 * mp + 2).fdiv 5 + (d : Int) - 1
  let doe : Int := yoe * 365 + yoe.fdiv 4 - yoe.fdiv 100 + doy
  era * 146097 + doe - 719468

/-- Microseconds from the civil epoch, for `timedelta` arithmetic. -/
def toMicros (t : PyDateTime) : Int :=
  daysFromCivil t.year t.month t.day * 86400000000 +
    ((t.hour * 3600 + t.minute * 60 + t.second) : Int) * 1000000 + (t.micro : Int)

/-- `(a - b).days` for naive datetimes: floor division, as in Python. -/
def timedeltaDays (a b : PyDateTime) : Int :=
  (toMicros a - toMicros b).fdiv 86400000000

/-- Decimal digit character. -/
def digitChar : Nat → Char
  | 0 => '0' | 1 => '1' | 2 => '2' | 3 => '3' | 4 => '4'
  | 5 => '5' | 6 => '6' | 7 => '7' | 8 => '8' | _ => '9'

/-- Two-digit zero-padded decimal. -/
def pad2 (n : Nat) : List Char := [digitChar (n / 10 % 10), digitChar (n % 10)]

/-- Four-digit zero-padded decimal. -/
def pad4 (n : Nat) : List Char :=
  [digitChar (n / 1000 % 10), digitChar (n / 100 % 10),
   digitChar (n / 10 % 10), digitChar (n % 10)]

/-- Six-digit zero-padded decimal. -/
def pad6 (n : Nat) : List Char :=
  [digitChar (n / 100000 % 10), digitChar (n / 10000 % 10),
   digitChar (n / 1000 % 10), digitChar (n / 100 % 10),
   digitChar (n / 10 % 10), digitChar (n % 10)]

/-- UTC-offset suffix printed by `isoformat()` on aware values. -/
def offsetChars (off : Int) : List Char :=
  (if off < 0 then '-' else '+') ::
    (pad2 (off.natAbs / 60) ++ ':' :: pad2 (off.natAbs % 60))

/-- `datetime.isoformat()`: `YYYY-MM-DDTHH:MM:SS`, a `.ffffff` fraction
only when the microsecond field is non-zero, and an offset suffix only on
aware values. -/
def isoCore (t : PyDateTime) : List Char :=
  pad4 t.year ++ '-' :: (pad2 t.month ++ '-' :: (pad2 t.day ++ 'T' ::
    (pad2 t.hour ++ ':' :: (pad2 t.minute ++ ':' :: pad2 t.second))))
  ++ (if t.micro = 0 then [] else '.' :: pad6 t.micro)
  ++ (if t.aware then offsetChars t.offMin else [])

/-- `datetime.isoformat()` as a `String`. -/
def pyIsoformat (t : PyDateTime) : String := String.mk (isoCore t)

/-- `datetime.utcnow().isoformat() + 'Z'`, the timestamp shape the
fetchers write everywhere. -/
def isoZ (t : PyDateTime) : String := String.mk (isoCore t ++ ['Z'])

/-- Value of a decimal digit character. -/
def digVal? (c : Char) : Option Nat :=
  if c.isDigit then some (c.toNat - 48) else none

/-- Parse exactly two digits. -/
def parse2 : List Char → Option (Nat × List Char)
  | a :: b :: rest => do pure ((← digVal? a) * 10 + (← digVal? b), rest)
  | _ => none

/-- Parse exactly four digits. -/
def parse4 : List Char → Option (Nat × List Char)
  | a :: b :: c :: d :: rest => do
      pure ((((← digVal? a) * 10 + (← digVal? b)) * 10 + (← digVal? c)) * 10
        + (← digVal? d), rest)
  | _ => none

/-- Expect a literal character. -/
def lit (c : Char) : List Char → Option (List Char)
  | d :: rest => if d = c then some rest else none
  | [] => none

/-- Abbreviated month names understood by `strptime`'s `%b`. -/
def monthAbbrevs : List (String × Nat) :=
  [("Jan", 1), ("Feb", 2), ("Mar", 3), ("Apr", 4), ("May", 5), ("Jun", 6),
   ("Jul", 7), ("Aug", 8), ("Sep", 9), ("Oct", 10), ("Nov", 11), ("Dec", 12)]

/-- Parse a three-letter month name. -/
def parseMonthName : List Char → Option (Nat × List Char)
  | a :: b :: c :: rest =>
      (monthAbbrevs.lookup (String.mk [a, b, c])).map (fun n => (n, rest))
  | _ => none

/-- Abbreviated weekday names understood by `%a` (value is discarded). -/
def dayAbbrevs : List String := ["Mon", "Tue", "Wed", "Thu", "Fri", "Sat", "Sun"]

/-- Parse (and discard) a three-letter weekday name. -/
def parseDayName : List Char → Option (List Char)
  | a :: b :: c :: rest =>
      if dayAbbrevs.contains (String.mk [a, b, c]) then some rest else none
  | _ => none

/-- Parse `HH:MM:SS`. -/
def parseHMS (l : List Char) : Option (Nat × Nat × Nat × List Char) := do
  let (h, l1) ← parse2 l
  let l2 ← lit ':' l1
  let (mi, l3) ← parse2 l2
  let l4 ← lit ':' l3
  let (s, l5) ← parse2 l4
  pure (h, mi, s, l5)

/-- Parse a `%z` offset: `Z`, `±HHMM` or `±HH:MM`, in minutes. -/
def parseOffZ : List Char → Option (Int × List Char)
  | 'Z' :: rest => some (0, rest)
  | c :: rest =>
    if c = '+' || c = '-' then do
      let (h, r1) ← parse2 rest
      let r2 := match lit ':' r1 with | some r' => r' | none => r1
      let (m, r3) ← parse2 r2
      if h ≤ 23 && m ≤ 59 then
        pure ((if c = '+' then (1 : Int) else -1) * ((h : Int) * 60 + m), r3)
      else none
    else none
  | [] => none

/-- Range-validated `datetime` construction, as Python's constructor. -/
def mkDT (y mo d h mi s us : Nat) (aw : Bool) (off : Int) : Option PyDateTime :=
  if 1 ≤ y && y ≤ 9999 && 1 ≤ mo && mo ≤ 12 && 1 ≤ d && d ≤ daysInMonth y mo
      && h ≤ 23 && mi ≤ 59 && s ≤ 59 && us ≤ 999999 then
    some ⟨y, mo, d, h, mi, s, us, aw, off⟩
  else none

/-- `strptime` with format `"%a, %d %b %Y %H:%M:%S %z"` (aware result).
Numeric fields are modelled at fixed width and names at standard case, the
shapes the feeds emit. -/
def strptimeRfcOff (s : String) : Option PyDateTime := do
  let l1 ← parseDayName s.data
  let l2 ← lit ',' l1
  let l3 ← lit ' ' l2
  let (d, l4) ← parse2 l3
  let l5 ← lit ' ' l4
  let (mo, l6) ← parseMonthName l5
  let l7 ← lit ' ' l6
  let (y, l8) ← parse4 l7
  let l9 ← lit ' ' l8
  let (h, mi, sec, l10) ← parseHMS l9
  let l11 ← lit ' ' l10
  let (off, l12) ← parseOffZ l11
  if l12 = [] then mkDT y mo d h mi sec 0 true off else none

/-- Zone names accepted by `%Z` here (naive result). -/
def parseZoneName : List Char → Option (List Char)
  | a :: b :: c :: rest =>
    if String.mk [a, b, c] = "UTC" || String.mk [a, b, c] = "GMT" then some rest
    else none
  | _ => none

/-- `strptime` with format `"%a, %d %b %Y %H:%M:%S %Z"` (naive result). -/
def strptimeRfcName (s : String) : Option PyDateTime := do
  let l1 ← parseDayName s.data
  let l2 ← lit ',' l1
  let l3 ← lit ' ' l2
  let (d, l4) ← parse2 l3
  let l5 ← lit ' ' l4
  let (mo, l6) ← parseMonthName l5
  let l7 ← lit ' ' l6
  let (y, l8) ← parse4 l7
  let l9 ← lit ' ' l8
  let (h, mi, sec, l10) ← parseHMS l9
  let l11 ← lit ' ' l10
  let l12 ← parseZoneName l11
  if l12 = [] then mkDT y mo d h mi sec 0 false 0 else none

/-- `strptime` with format `"%Y-%m-%dT%H:%M:%SZ"` (the `Z` is a literal,
so the result is naive). -/
def strptimeIsoZ (s : String) : Option PyDateTime := do
  let (y, l1) ← parse4 s.data
  let l2 ← lit '-' l1
  let (mo, l3) ← parse2 l2
  let l4 ← lit '-' l3
  let (d, l5) ← parse2 l4
  let l6 ← lit 'T' l5
  let (h, mi, sec, l7) ← parseHMS l6
  let l8 ← lit 'Z' l7
  if l8 = [] then mkDT y mo d h mi sec 0 false 0 else none

/-- `strptime` with format `"%Y-%m-%d %H:%M:%S"`. -/
def strptimeIsoSp (s : String) : Option PyDateTime := do
  let (y, l1) ← parse4 s.data
  let l2 ← lit '-' l1
  let (mo, l3) ← parse2 l2
  let l4 ← lit '-' l3
  let (d, l5) ← parse2 l4
  let l6 ← lit ' ' l5
  let (h, mi, sec, l7) ← parseHMS l6
  if l7 = [] then mkDT y mo d h mi sec 0 false 0 else none

/-- `strptime` with format `"%d %b %Y %H:%M:%S"`. -/
def strptimeDmy (s : String) : Option PyDateTime := do
  let (d, l1) ← parse2 s.data
  let l2 ← lit ' ' l1
  let (mo, l3) ← parseMonthName l2
  let l4 ← lit ' ' l3
  let (y, l5) ← parse4 l4
  let l6 ← lit ' ' l5
  let (h, mi, sec, l7) ← parseHMS l6
  if l7 = [] then mkDT y mo d h mi sec 0 false 0 else none

/-- `strptime` with format `"%b %d, %Y"`. -/
def strptimeMdy (s : String) : Option PyDateTime := do
  let (mo, l1) ← parseMonthName s.data
  let l2 ← lit ' ' l1
  let (d, l3) ← parse2 l2
  let l4 ← lit ',' l3
  let l5 ← lit ' ' l4
  let (y, l6) ← parse4 l5
  if l6 = [] then mkDT y mo d 0 0 0 0 false 0 else none

/-- The ordered format cascade of `Utils.parse_date`. -/
def tryFormats (s : String) : Option PyDateTime :=
  (strptimeRfcOff s).orElse (fun _ =>
    (strptimeRfcName s).orElse (fun _ =>
      (strptimeIsoZ s).orElse (fun _ =>
        (strptimeIsoSp s).orElse (fun _ =>
          (strptimeDmy s).orElse (fun _ => strptimeMdy s)))))

/-- `Utils.parse_date` (behaviourally identical in both fetch scripts: the
year-rewriting block after the format cascade assigns to a local that is
never read, so every non-matching input falls back to the current time).
`today` stands for the `utcnow()` clock. -/
def parse_date (today : PyDateTime) (date_str : String) : String :=
  if date_str = "" then isoZ today
  else
    match tryFormats date_str with
    | some dt => String.mk (isoCore dt ++ ['Z'])
    | none => isoZ today

/-- Numeric value of a digit string. -/
def natOfDigits (l : List Char) : Nat :=
  l.foldl (fun acc c => acc * 10 + (c.toNat - 48)) 0

/-- Fractional-seconds part accepted by `datetime.fromisoformat`:
nothing, or `.` plus exactly six or exactly three digits. -/
def parseFrac : List Char → Option (Nat × List Char)
  | '.' :: rest =>
    if (rest.take 6).length = 6 && (rest.take 6).all Char.isDigit then
      some (natOfDigits (rest.take 6), rest.drop 6)
    else if (rest.take 3).length = 3 && (rest.take 3).all Char.isDigit then
      some (natOfDigits (rest.take 3) * 1000, rest.drop 3)
    else none
  | l => some (0, l)

/-- Offset part accepted by `datetime.fromisoformat`: nothing (naive), or
`±HH:MM` ending the string (aware). -/
def parseOffIso : List Char → Option (Bool × Int × List Char)
  | [] => some (false, 0, [])
  | c :: rest =>
    if c = '+' || c = '-' then do
      let (h, r1) ← parse2 rest
      let r2 ← lit ':' r1
      let (m, r3) ← parse2 r2
      if h ≤ 23 && m ≤ 59 && r3.isEmpty then
        some (true, (if c = '+' then (1 : Int) else -1) * ((h : Int) * 60 + m), [])
      else none
    else none

/-- Model of `datetime.fromisoformat` (Python ≤ 3.10 semantics: strictly
zero-padded fields, `T` or space separator, optional seconds fraction of
three or six digits, optional `±HH:MM` offset; a trailing `Z` is not
accepted). -/
def pyFromIso (s : String) : Option PyDateTime := do
  let (y, l1) ← parse4 s.data
  let l2 ← lit '-' l1
  let (mo, l3) ← parse2 l2
  let l4 ← lit '-' l3
  let (d, l5) ← parse2 l4
  match l5 with
  | [] => mkDT y mo d 0 0 0 0 false 0
  | sep :: rest =>
    if sep = 'T' || sep = ' ' then do
      let (h, mi, sec, r1) ← parseHMS rest
      let (us, r2) ← parseFrac r1
      let (aw, off, r3) ← parseOffIso r2
      if r3 = [] then mkDT y mo d h mi sec us aw off else none
    else none

/-- The canonical article record produced by normalization.  The optional
`metrics` dict attached to Nitter tweets carries constant zeros and is
read nowhere downstream, so it is not modelled. -/
structure Article where
  id : String
  title : String
  url : String
  summary : String
  source : String
  category : String
  published_at : String
  timestamp : String
  type : String
deriving DecidableEq

/-- `Config.KEYWORDS`, identical in both fetch scripts. -/
def KEYWORDS : List String :=
  ["nigeria", "nigerian", "naira", "CBN", "central bank", "inflation",
   "GDP", "economy", "NNPC", "crude oil", "petroleum", "budget",
   "debt", "interest rate", "MPC", "monetary policy", "exchange rate",
   "Lagos", "Abuja", "FG", "federal government", "revenue",
   "export", "import", "trade", "manufacturing", "agriculture"]

/-- `Utils.is_relevant`: empty text is irrelevant; otherwise some keyword
must occur, case-insensitively, as a substring. -/
def is_relevant (text : String) (keywords : List String) : Bool :=
  if text = "" then false
  else keywords.any (fun k => pyIn (pyLower k) (pyLower text))

/-- Python word character for the `[^\w\s]` class (ASCII fidelity). -/
def isWordChar (c : Char) : Bool := c.isAlphanum || c == '_'

/-- Title normalization inside the fuzzy deduplicator: lower-case and
strip punctuation (`re.sub(r'[^\w\s]', '', title)`). -/
def normTitle (t : String) : String :=
  String.mk ((pyLower t).data.filter (fun c => isWordChar c || c.isWhitespace))

/-- `set(title.split()[:5])`: the set of the first five words. -/
def words5 (t : String) : Finset String :=
  (((pyWords t.data).take 5).map String.mk).toFinset

/-- Jaccard-style overlap of a candidate title against one seen title,
with the candidate's word count as denominator. -/
def similarity (seen cur : String) : ℚ :=
  ((words5 cur ∩ words5 seen).card : ℚ) / (max (words5 cur).card 1 : ℚ)

/-- The 60%-similarity duplicate test of `fetch-news-free.py`, stated
integrally: with `i` the overlap and `m = max(|words|, 1)`, the float
test `i / m > 0.6` holds exactly when `5 * i > 3 * m` (both `i / m` and
`0.6` round to the nearest double, and at these magnitudes — `i ≤ m ≤ 5`
— rounding cannot flip a strict comparison, the ratio `3/5` itself
rounding to the same double as the literal `0.6`). -/
def isDupOf (seen cur : String) : Bool :=
  decide (5 * (words5 cur ∩ words5 seen).card > 3 * max (words5 cur).card 1)

/-- Accumulator recursion of `fetch-news-free.py`'s `remove_duplicates`:
`seen` holds the normalized titles of the articles kept so far. -/
def dedupGoFree : List Article → List String → List Article
  | [], _ => []
  | a :: rest, seen =>
    if seen.any (fun s => isDupOf s (normTitle a.title)) then
      dedupGoFree rest seen
    else a :: dedupGoFree rest (normTitle a.title :: seen)

/-- The exact-key of `fetch-news.py`'s deduplicator:
`article['title'].lower()[:50]`. -/
def titleKey (a : Article) : String := String.mk ((pyLower a.title).data.take 50)

/-- Accumulator recursion of `fetch-news.py`'s `remove_duplicates`. -/
def dedupGoMain : List Article → List String → List Article
  | [], _ => []
  | a :: rest, seen =>
    if seen.contains (titleKey a) then dedupGoMain rest seen
    else a :: dedupGoMain rest (titleKey a :: seen)

/-- Lexicographic strict comparison of character lists by code point,
Python's string ordering. -/
def listLtChar : List Char → List Char → Bool
  | [], [] => false
  | [], _ :: _ => true
  | _ :: _, [] => false
  | a :: as, b :: bs =>
    if a.toNat < b.toNat then true
    else if b.toNat < a.toNat then false
    else listLtChar as bs

/-- Python's `<` on strings. -/
def pyStrLt (a b : String) : Bool := listLtChar a.data b.data

/-- Stable descending insertion step: `a` is placed before the first
element whose key is strictly smaller, so elements with equal keys keep
their original relative order. -/
def insertDescBy {α κ : Type} (lt : κ → κ → Bool) (key : α → κ) (a : α) :
    List α → List α
  | [] => [a]
  | b :: rest =>
    if lt (key b) (key a) then a :: b :: rest
    else b :: insertDescBy lt key a rest

/-- Stable descending sort by key.  A stable sort is determined uniquely
by the key order, so this insertion sort computes exactly the output of
CPython's stable `list.sort(key=..., reverse=True)`. -/
def stableSortDescBy {α κ : Type} (lt : κ → κ → Bool) (key : α → κ)
    (l : List α) : List α :=
  l.foldl (fun acc a => insertDescBy lt key a acc) []

/-- `all_articles.sort(key=lambda x: x.get('published_at',''), reverse=True)`:
stable sort, newest `published_at` string first. -/
def sortByDateDesc (l : List Article) : List Article :=
  stableSortDescBy pyStrLt (fun a => a.published_at) l

/-- The conditional year rewrite of step 6 of `fetch_all_news`
(`fetch-news-free.py` lines 528-530): a hard-coded `'2024' -> '2025'`. -/
def yearFixFree (p : String) : String :=
  if pyIn "2024" p then pyReplace p "2024" "2025" else p

/-- The future-date clamp of step 6 of `fetch_all_news` (lines 532-538):
re-parse `published_at` with `'Z'` rewritten to `'+00:00'`; on a parse
failure, on a naive/aware comparison error, or on a strictly future value,
reset to one hour before `today`. -/
def clampFuture (today : PyDateTime) (p : String) : String :=
  match pyFromIso (pyReplace p "Z" "+00:00") with
  | none => isoZ (subHour today)
  | some dt =>
    match pyCmpGt dt today with
    | none => isoZ (subHour today)
    | some g => if g then isoZ (subHour today) else p

/-- Per-article date repair of step 6 of `fetch_all_news`. -/
def fixDateFree (today : PyDateTime) (a : Article) : Article :=
  { a with published_at := clampFuture today (yearFixFree a.published_at) }

namespace FetchFree

/-- `NewsFetcher.remove_duplicates` of `fetch-news-free.py`: fuzzy
deduplication on ≥ 60% overlap of the first five normalized title words. -/
def remove_duplicates (articles : List Article) : List Article :=
  dedupGoFree articles []

/-- `NewsFetcher.generate_sample_fallback` of `fetch-news-free.py`.
The script reads `utcnow()` separately here; the embedding threads a
single run instant `today` through the pipeline. -/
def generate_sample_fallback (today : PyDateTime) : List Article :=
  [{ id := "sample_1",
     title := "Nigerian Economy Shows Strong Growth in Q1 2025",
     url := "https://businessday.ng/nigeria-economy-growth-2025/",
     summary := "Latest economic indicators show Nigeria\x27s economy growing at 3.2% in the first quarter of 2025, exceeding expectations.",
     source := "BusinessDay Nigeria", category := "business",
     published_at := isoZ today, timestamp := isoZ today, type := "sample" },
   { id := "sample_2",
     title := "CBN Maintains Interest Rate at 18.75% to Fight Inflation",
     url := "https://www.cbn.gov.ng/monetary-policy/2025/",
     summary := "The Central Bank of Nigeria has decided to maintain the Monetary Policy Rate at 18.75% in its latest MPC meeting.",
     source := "Central Bank of Nigeria", category := "monetary_policy",
     published_at := isoZ (subHours 2 today), timestamp := isoZ today, type := "sample" },
   { id := "sample_3",
     title := "Naira Stabilizes at ₦890/$ in Parallel Market",
     url := "https://nairametrics.com/naira-exchange-rate-2025/",
     summary := "The Nigerian naira has stabilized around ₦890 to the US dollar following recent CBN interventions in the forex market.",
     source := "Nairametrics", category := "economic_analysis",
     published_at := isoZ (subHours 4 today), timestamp := isoZ today, type := "sample" },
   { id := "sample_4",
     title := "NNPC Reports $2.8 Billion Oil Revenue for January 2025",
     url := "https://www.thecable.ng/nnpc-oil-revenue-jan-2025/",
     summary := "The Nigerian National Petroleum Corporation has announced $2.8 billion in oil revenue for January 2025, a 12% increase from December.",
     source := "The Cable", category := "politics_economy",
     published_at := isoZ (subHours 6 today), timestamp := isoZ today, type := "sample" },
   { id := "sample_5",
     title := "Inflation Drops to 20.5% in January 2025 - NBS",
     url := "https://www.premiumtimesng.com/inflation-january-2025/",
     summary := "The National Bureau of Statistics reports that inflation fell to 20.5% in January 2025, down from 21.3% in December.",
     source := "Premium Times", category := "general",
     published_at := isoZ (subHours 8 today), timestamp := isoZ today, type := "sample" }]

/-- Steps 5-9 of `NewsFetcher.fetch_all_news` of `fetch-news-free.py`.
Steps 1-4 (the network adapters) are the external collaborator; `fetched`
stands for the concatenated adapter output `all_articles`. -/
def fetch_all_news (today : PyDateTime) (fetched : List Article) : List Article :=
  let deduped := remove_duplicates fetched
  let dated := deduped.map (fixDateFree today)
  let sorted := sortByDateDesc dated
  let filled :=
    if sorted.length < 5 then generate_sample_fallback today ++ sorted else sorted
  filled.take 50

end FetchFree

namespace FetchMain

/-- `NewsFetcher.remove_duplicates` of `fetch-news.py`: exact match on the
lower-cased 50-character title prefix. -/
def remove_duplicates (articles : List Article) : List Article :=
  dedupGoMain articles []

/-- `NewsFetcher.ensure_current_dates` of `fetch-news.py`: rewrite the
year token `current_year - 1` (else, failing that, `current_year - 2`)
inside `published_at` to the current year. -/
def ensure_current_dates (today : PyDateTime) (articles : List Article) : List Article :=
  articles.map (fun a =>
    if pyIn (toString (today.year - 1)) a.published_at then
      { a with published_at :=
          pyReplace a.published_at (toString (today.year - 1)) (toString today.year) }
    else if pyIn (toString (today.year - 2)) a.published_at then
      { a with published_at :=
          pyReplace a.published_at (toString (today.year - 2)) (toString today.year) }
    else a)

/-- `NewsFetcher.generate_current_articles` of `fetch-news.py`. -/
def generate_current_articles (today : PyDateTime) : List Article :=
  [{ id := "1",
     title := "Nigerian Economy Shows Growth in 2025",
     url := "https://businessday.ng/economy-growth-2025/",
     summary := "Economic indicators show positive growth trends in Nigeria for 2025.",
     source := "BusinessDay Nigeria", category := "business",
     published_at := isoZ today, timestamp := isoZ today, type := "current" },
   { id := "2",
     title := "CBN Maintains Monetary Policy Stance",
     url := "https://www.cbn.gov.ng/policy-2025/",
     summary := "Central Bank keeps interest rates steady to manage inflation.",
     source := "Central Bank of Nigeria", category := "monetary_policy",
     published_at := isoZ (subHours 1 today), timestamp := isoZ today, type := "current" },
   { id := "3",
     title := "Naira Exchange Rate Update",
     url := "https://nairametrics.com/forex-2025/",
     summary := "Latest updates on naira to dollar exchange rates in Nigerian markets.",
     source := "Nairametrics", category := "economic_analysis",
     published_at := isoZ (subHours 2 today), timestamp := isoZ today, type := "current" },
   { id := "4",
     title := "Oil Revenue Reports for 2025",
     url := "https://www.thecable.ng/oil-revenue-2025/",
     summary := "NNPC releases latest oil revenue figures for the current year.",
     source := "The Cable", category := "politics_economy",
     published_at := isoZ (subHours 3 today), timestamp := isoZ today, type := "current" },
   { id := "5",
     title := "Inflation Trends in Nigeria 2025",
     url := "https://www.premiumtimesng.com/inflation-2025/",
     summary := "Latest inflation data and analysis from Nigerian statistical agencies.",
     source := "Premium Times", category := "general",
     published_at := isoZ (subHours 4 today), timestamp := isoZ today, type := "current" }]

/-- Steps 5-7 of `NewsFetcher.fetch_all` of `fetch-news.py` (steps 1-4 are
the network adapters; `fetched` is the concatenated adapter output). -/
def fetch_all (today : PyDateTime) (fetched : List Article) : List Article :=
  let deduped := remove_duplicates fetched
  let dated := ensure_current_dates today deduped
  let filled :=
    if dated.length < 5 then generate_current_articles today ++ dated else dated
  (sortByDateDesc filled).take 40

end FetchMain

/-- A raw feed entry as returned by the Fetch Adapter (`feedparser`
entry): every field may be absent.  `links` models `entry.links[0].href`. -/
structure RawEntry where
  title : Option String
  summary : Option String
  description : Option String
  link : Option String
  links : List String
  published : Option String
  updated : Option String
deriving DecidableEq

namespace FetchFree

/-- URL selection of `fetch_rss_feed`: `entry.get('link','')`, falling
back to `entry.links[0].href` when that is empty and links exist. -/
def rssUrl (e : RawEntry) : String :=
  let u := e.link.getD ""
  if u = "" && !e.links.isEmpty then e.links.headD "" else u

/-- Per-entry normalization of `NewsFetcher.fetch_rss_feed` in
`fetch-news-free.py` (lines 213-245): clean, filter by relevance, build
the article, and keep it only when title and url are non-empty. -/
def fetch_rss_entry (srcName srcCat : String) (today : PyDateTime)
    (e : RawEntry) : Option Article :=
  let title := clean_text (e.title.getD "")
  let summary := clean_text (e.summary.getD (e.description.getD ""))
  if !is_relevant (title ++ " " ++ summary) KEYWORDS then none
  else
    let url := rssUrl e
    let pubDate := parse_date today (e.published.getD (e.updated.getD ""))
    let article : Article :=
      { id := srcName ++ "_" ++ toString (pyHash title % 1000000),
        title := title, url := url,
        summary := if summary.length > 200
          then String.mk (summary.data.take 200) ++ "..." else summary,
        source := srcName, category := srcCat,
        published_at := pubDate, timestamp := isoZ today, type := "rss" }
    if article.title ≠ "" ∧ article.url ≠ "" then some article else none

/-- Per-entry normalization of `NewsFetcher.fetch_google_news_rss`
(lines 269-287). -/
def fetch_google_entry (today : PyDateTime) (e : RawEntry) : Option Article :=
  let title := clean_text (e.title.getD "")
  if !is_relevant title KEYWORDS then none
  else
    let article : Article :=
      { id := "google_news_" ++ toString (pyHash title % 1000000),
        title := title, url := e.link.getD "",
        summary := String.mk ((clean_text (e.summary.getD "")).data.take 150),
        source := "Google News", category := "aggregated",
        published_at := parse_date today (e.published.getD ""),
        timestamp := isoZ today, type := "google_news" }
    if article.title ≠ "" ∧ article.url ≠ "" then some article else none

/-- Per-entry normalization of `NewsFetcher.fetch_nitter_tweets`
(lines 310-329): the article is appended unconditionally, with no
title/url rejection check. -/
def fetch_nitter_entry (topicName : String) (today : PyDateTime)
    (e : RawEntry) : Article :=
  let content := clean_text (e.title.getD "")
  { id := "twitter_" ++ toString (pyHash content % 1000000),
    title := if content.length > 100
      then String.mk (content.data.take 100) ++ "..." else content,
    url := e.link.getD ("https://twitter.com/i/web/status/" ++ toString (pyHash content)),
    summary := "", source := "Twitter - " ++ topicName, category := "social",
    published_at := parse_date today (e.published.getD ""),
    timestamp := isoZ today, type := "twitter" }

/-- Link filter of `NewsFetcher.fetch_web_scraping` (lines 368-378): a
candidate is kept only when its anchor text is longer than 20 characters
and relevant; relative links are prefixed with the target URL. -/
def scrape_keep (targetUrl text href : String) : Option (String × String) :=
  if text.length > 20 && is_relevant text KEYWORDS then
    some (text, if href.startsWith "http" then href else targetUrl ++ href)
  else none

/-- Article construction of `fetch_web_scraping` (lines 380-392) for a
kept link. -/
def scrape_article (tName tCat : String) (today : PyDateTime)
    (kept : String × String) : Article :=
  { id := "scrape_" ++ toString (pyHash kept.1 % 1000000),
    title := kept.1, url := kept.2,
    summary := "Latest update from " ++ tName,
    source := tName, category := tCat,
    published_at := isoZ today, timestamp := isoZ today, type := "web_scrape" }

end FetchFree

namespace ProcessData

/-- Positive indicator word list of `analyze_sentiment`. -/
def positive_words : List String :=
  ["growth", "increase", "rise", "gain", "profit", "surplus",
   "recovery", "improve", "strong", "bullish", "optimistic",
   "positive", "outperform", "beat", "exceed", "record",
   "achievement", "success", "boom", "expansion"]

/-- Negative indicator word list of `analyze_sentiment`. -/
def negative_words : List String :=
  ["decline", "fall", "drop", "loss", "deficit", "recession",
   "worsen", "weak", "bearish", "pessimistic", "negative",
   "underperform", "miss", "below", "crisis", "slump",
   "inflation", "debt", "default", "corruption"]

/-- What `analyze_sentiment` actually returns: the bare number `0` when
no indicator word occurs, and a `score/label/confidence` dict otherwise. -/
inductive SentimentReturn where
  | num (q : ℚ)
  | dict (score : ℚ) (label : String) (confidence : ℚ)
deriving DecidableEq

/-- `NigeriaNewsProcessor.analyze_sentiment` (`process-data.py` lines
58-94), including the `return 0` branch taken when both keyword counts
are zero. -/
def analyze_sentiment (text : String) : SentimentReturn :=
  let tl := pyLower text
  let p := (positive_words.filter (fun w => pyIn w tl)).length
  let n := (negative_words.filter (fun w => pyIn w tl)).length
  if p + n = 0 then .num 0
  else
    let s : ℚ := ((p : ℚ) - (n : ℚ)) / ((p : ℚ) + (n : ℚ))
    -- the thresholds `s > 0.2` and `s < -0.2` are stated integrally
    -- (`p + n > 0`), which is exact for these small rationals
    if 5 * ((p : Int) - (n : Int)) > (p : Int) + (n : Int) then
      .dict s "positive" (min |s| (4 / 5))
    else if 5 * ((p : Int) - (n : Int)) < -((p : Int) + (n : Int)) then
      .dict s "negative" (min |s| (4 / 5))
    else .dict s "neutral" (1 / 2)

/-- `self.economic_indicators`: keyword, weight, sentiment. -/
def economic_indicators : List (String × Nat × Int) :=
  [("inflation", 10, -1), ("growth", 8, 1), ("naira", 9, 0), ("dollar", 9, 0),
   ("CBN", 8, 0), ("interest rate", 7, -1), ("GDP", 9, 0),
   ("unemployment", 7, -1), ("budget", 6, 0), ("debt", 6, -1), ("oil", 8, 0),
   ("crude", 8, 0), ("export", 6, 1), ("import", 6, -1), ("trade", 6, 0)]

/-- `self.government_entities`. -/
def government_entities : List String :=
  ["CBN", "Central Bank", "NNPC", "NDIC", "NBS", "DMO",
   "Finance Ministry", "Budget Office", "FIRS", "Customs"]

/-- `.get(kw, dict()).get("weight", 1)` lookup. -/
def weightOf (kw : String) : Nat :=
  ((economic_indicators.lookup kw).map Prod.fst).getD 1

/-- Insertion-ordered counter increment, the `Counter`/`defaultdict`
update semantics of Python dicts. -/
def bump {α : Type} [DecidableEq α] : List (α × Nat) → α → List (α × Nat)
  | [], k => [(k, 1)]
  | (a, n) :: rest, k =>
    if a = k then (a, n + 1) :: rest else (a, n) :: bump rest k

/-- `Counter.most_common(k)` / `sorted(..., key=count, reverse=True)[:k]`:
stable descending sort by count. -/
def mostCommon {α : Type} (k : Nat) (counts : List (α × Nat)) : List (α × Nat) :=
  (stableSortDescBy (fun x y => decide (x < y)) (fun p => p.2) counts).take k

/-- The lowered `title + ' ' + summary` text used by the analytics. -/
def textLower (a : Article) : String := pyLower (a.title ++ " " ++ a.summary)

/-- The recent-article filter of `detect_trends` (lines 129-132): the
comprehension calls `datetime.fromisoformat` on each `published_at` with
no exception handler, so one unparseable timestamp (or one aware
timestamp subtracted from the naive `utcnow()`) raises out of the whole
function. -/
def recentFilter (now : PyDateTime) : List Article → Except Unit (List Article)
  | [] => .ok []
  | a :: rest =>
    match pyFromIso a.published_at with
    | none => .error ()
    | some dt =>
      if dt.aware != now.aware then .error ()
      else do
        let r ← recentFilter now rest
        pure (if timedeltaDays now dt < 1 then a :: r else r)

/-- Trend snapshot record: (keyword, count, score, weight) and
(entity, count, score) rankings. -/
structure TrendSnapshot where
  trending_keywords : List (String × Nat × ℚ × Nat)
  trending_entities : List (String × Nat × ℚ)
  total_recent_articles : Nat
  analysis_time : String
deriving DecidableEq

/-- `NigeriaNewsProcessor.detect_trends` (lines 125-177).  Keyword counts
test the raw registry keyword against the lowered text (so upper-case
registry keywords can never match); entity names are lowered first. -/
def detect_trends (now : PyDateTime) (articles : List Article) :
    Except Unit TrendSnapshot := do
  let recent ← recentFilter now articles
  let word_counts := recent.foldl (fun wc a =>
    economic_indicators.foldl (fun wc kv =>
      if pyIn kv.1 (textLower a) then bump wc kv.1 else wc) wc) []
  let entity_counts := recent.foldl (fun ec a =>
    government_entities.foldl (fun ec ent =>
      if pyIn (pyLower ent) (textLower a) then bump ec ent else ec) ec) []
  let total := recent.length
  .ok { trending_keywords := (mostCommon 10 word_counts).map (fun p =>
          (p.1, p.2, (p.2 : ℚ) / (max total 1 : ℚ), weightOf p.1)),
        trending_entities := (mostCommon 10 entity_counts).map (fun p =>
          (p.1, p.2, (p.2 : ℚ) / (max total 1 : ℚ))),
        total_recent_articles := total,
        analysis_time := pyIsoformat now }

/-- `sentiment["score"]`: subscripting the bare `0` returned for
keyword-free text raises `TypeError`. -/
def getScore : SentimentReturn → Except Unit ℚ
  | .dict s _ _ => .ok s
  | .num _ => .error ()

/-- Minimum of a string list with default `""` (`min(..., default="")`). -/
def listMin : List String → String
  | [] => ""
  | x :: xs => xs.foldl min x

/-- Maximum of a string list with default `""`. -/
def listMax : List String → String
  | [] => ""
  | x :: xs => xs.foldl max x

/-- The analytics summary record of `generate_analytics`. -/
structure AnalyticsOut where
  total_articles : Nat
  avg_sentiment : ℚ
  avg_article_length : ℚ
  top_sources : List (String × Nat)
  top_categories : List (String × Nat)
  peak_hours : List (Nat × Nat)
  sentiment_positive : Nat
  sentiment_neutral : Nat
  sentiment_negative : Nat
  sources_count : Nat
  categories_count : Nat
  period_start : String
  period_end : String
deriving DecidableEq

/-- `NigeriaNewsProcessor.generate_analytics` (lines 179-242): an empty
input returns the empty dict (`none`); the publication-hour histogram
guards its timestamp parse with `try/except` and merely skips bad
entries, but the sentiment accumulation subscripts `analyze_sentiment`'s
result unguarded, so a keyword-free article raises out of the function. -/
def generate_analytics (articles : List Article) :
    Except Unit (Option AnalyticsOut) :=
  if articles = [] then .ok none
  else do
    let scores ← articles.mapM (fun a =>
      getScore (analyze_sentiment (a.title ++ " " ++ a.summary)))
    let hours := articles.foldl (fun h a =>
      match pyFromIso a.published_at with
      | some dt => bump h dt.hour
      | none => h) []
    let sources := articles.foldl (fun h a => bump h a.source) []
    let cats := articles.foldl (fun h a => bump h a.category) []
    let lens := articles.map (fun a => (a.title ++ " " ++ a.summary).length)
    let pubs := (articles.map (fun a => a.published_at)).filter (fun p => p ≠ "")
    .ok (some
      { total_articles := articles.length,
        avg_sentiment := if scores ≠ [] then scores.sum / (scores.length : ℚ) else 0,
        avg_article_length :=
          if lens ≠ [] then ((lens.sum : ℚ)) / (lens.length : ℚ) else 0,
        top_sources := mostCommon 5 sources,
        top_categories := mostCommon 5 cats,
        peak_hours := mostCommon 3 hours,
        sentiment_positive := (scores.filter (fun s => decide (s > 1 / 5))).length,
        sentiment_neutral :=
          (scores.filter (fun s => decide (-(1 / 5) ≤ s ∧ s ≤ 1 / 5))).length,
        sentiment_negative := (scores.filter (fun s => decide (s < -(1 / 5)))).length,
        sources_count := sources.length,
        categories_count := cats.length,
        period_start := listMin pubs,
        period_end := listMax pubs })

/-- The analytics portion of `process_all` (lines 363-369): the calls to
`generate_analytics` and `detect_trends` have no exception handler, so an
error in either aborts the whole batch.  (The per-source statistics stage
is not needed by any claim and is omitted.) -/
def process_analytics_stage (now : PyDateTime) (articles : List Article) :
    Except Unit (Option AnalyticsOut × TrendSnapshot) := do
  let an ← generate_analytics articles
  let tr ← detect_trends now articles
  .ok (an, tr)

end ProcessData

/-- A match of `<[^>]+>` starts somewhere in the list: some `<` is
followed by at least one non-`>` character and, later, a `>`. -/
def hasTag : List Char → Prop
  | [] => False
  | c :: cs =>
    (c = '<' ∧ cs.takeWhile (fun d => d ≠ '>') ≠ [] ∧
      cs.dropWhile (fun d => d ≠ '>') ≠ []) ∨ hasTag cs

/-- A match of `&[a-z]+;` starts somewhere in the list. -/
def hasEnt : List Char → Prop
  | [] => False
  | c :: cs =>
    (c = '&' ∧ cs.takeWhile isEntChar ≠ [] ∧
      (cs.dropWhile isEntChar).head? = some ';') ∨ hasEnt cs

/-- No two consecutive whitespace characters. -/
def noWsRun (l : List Char) : Prop :=
  List.Chain' (fun a b => ¬(a.isWhitespace = true ∧ b.isWhitespace = true)) l

/-- Neither boundary character is whitespace. -/
def noWsEnds (l : List Char) : Prop :=
  (∀ c, l.head? = some c → c.isWhitespace = false) ∧
  (∀ c, l.getLast? = some c → c.isWhitespace = false)

/-! ### Concrete fixtures used by witnesses and counterexamples -/

/-- A concrete run instant: 2025-10-12 12:00:00 UTC, naive. -/
def fxToday : PyDateTime := ⟨2025, 10, 12, 12, 0, 0, 0, false, 0⟩

/-- Fixture article with a five-word title. -/
def fxA : Article :=
  { id := "a", title := "alpha beta gamma delta epsilon", url := "ua",
    summary := "", source := "s1", category := "c1",
    published_at := "2025-10-12T09:00:00Z", timestamp := "t", type := "rss" }

/-- Fixture article whose title shares four of five words with `fxA`. -/
def fxB : Article :=
  { id := "b", title := "alpha beta gamma delta zeta", url := "ub",
    summary := "", source := "s2", category := "c2",
    published_at := "2025-10-12T08:00:00Z", timestamp := "t", type := "rss" }

/-- Fixture article sharing four words with `fxB` but only three with
`fxA`. -/
def fxC : Article :=
  { id := "c", title := "alpha beta gamma zeta eta", url := "uc",
    summary := "", source := "s3", category := "c3",
    published_at := "2025-10-12T07:00:00Z", timestamp := "t", type := "rss" }

/-- Fixture article with an unrelated title. -/
def fxD : Article :=
  { id := "d", title := "completely different words entirely here", url := "ud",
    summary := "", source := "s4", category := "c4",
    published_at := "2025-10-12T06:00:00Z", timestamp := "t", type := "rss" }

/-- Fixture article whose `published_at` lies in the future of `fxToday`. -/
def fxFuture : Article :=
  { id := "f", title := "future dated piece", url := "uf",
    summary := "", source := "s5", category := "c5",
    published_at := "2026-01-01T00:00:00Z", timestamp := "t", type := "rss" }

/-- Fixture article with an unparseable `published_at`. -/
def fxBad : Article :=
  { id := "x", title := "Nigeria growth", url := "ux",
    summary := "", source := "s6", category := "c6",
    published_at := "not-a-date", timestamp := "t", type := "rss" }

/-- Fixture article carrying a `published_at` that mentions both the
`current year - 1` and the `current year - 2` tokens. -/
def fxTwoYears : Article :=
  { id := "y", title := "two year tokens", url := "uy",
    summary := "", source := "s7", category := "c7",
    published_at := "2023-12-31T00:00:00Z 2024", timestamp := "t", type := "rss" }

/-- Fixture raw entry whose title is missing (so it cleans to `""`). -/
def fxEntryNoTitle : RawEntry :=
  { title := none, summary := none, description := none, link := some "http://x",
    links := [], published := none, updated := none }

/-- Fixture article with a title disjoint from all other fixtures. -/
def fxE : Article :=
  { id := "e", title := "one two three four five", url := "ue",
    summary := "", source := "s8", category := "c8",
    published_at := "2025-10-12T05:00:00Z", timestamp := "t", type := "rss" }

/-- Fixture article with a title disjoint from all other fixtures. -/
def fxF : Article :=
  { id := "g", title := "six seven eight nine ten", url := "ug",
    summary := "", source := "s9", category := "c9",
    published_at := "2025-10-12T03:00:00Z", timestamp := "t", type := "rss" }

/-- Fixture article with a title disjoint from all other fixtures. -/
def fxG : Article :=
  { id := "h", title := "eleven twelve thirteen fourteen fifteen", url := "uh",
    summary := "", source := "s10", category := "c10",
    published_at := "2025-10-12T02:00:00Z", timestamp := "t", type := "rss" }

/-- Fixture article whose `published_at` parses under `fromisoformat`
(naive, no trailing `Z`) and whose text contains a sentiment keyword. -/
def fxGood : Article :=
  { id := "n", title := "strong growth ahead", url := "un",
    summary := "", source := "s11", category := "c11",
    published_at := "2025-10-12T09:00:00", timestamp := "t", type := "rss" }

/-- Fixture article whose text contains no sentiment keyword at all. -/
def fxNeutral : Article :=
  { id := "m", title := "markets open in lagos today", url := "um",
    summary := "", source := "s12", category := "c12",
    published_at := "2025-10-12T09:00:00", timestamp := "t", type := "rss" }

/-! ### Scanner equations

The structural `skip` scanners satisfy the direct recurrences of
`re.sub`'s / `str.replace`'s left-to-right scan; all later proofs use
only these equations. -/

theorem drop_takeWhile_length (p : Char → Bool) (l : List Char) :
    l.drop (l.takeWhile p).length = l.dropWhile p := by
  induction l with
  | nil => rfl
  | cons c cs ih =>
    by_cases h : p c
    · simp [List.takeWhile_cons, List.dropWhile_cons, h, ih]
    · simp [List.takeWhile_cons, List.dropWhile_cons, h]

theorem stGo_skip (l : List Char) : ∀ k, stGo k l = stGo 0 (l.drop k) := by
  induction l with
  | nil => intro k; cases k <;> rfl
  | cons c cs ih =>
    intro k
    cases k with
    | zero => rfl
    | succ k => simpa [stGo] using ih k

theorem stripTags_cons (c : Char) (cs : List Char) :
    stripTags (c :: cs) =
      if c = '<' ∧ cs.takeWhile (fun d => d ≠ '>') ≠ [] ∧
          cs.dropWhile (fun d => d ≠ '>') ≠ [] then
        stripTags (cs.dropWhile (fun d => d ≠ '>')).tail
      else c :: stripTags cs := by
  show stGo 0 (c :: cs) = _
  rw [stGo]
  split
  · rw [stGo_skip, ← List.tail_drop, drop_takeWhile_length]; rfl
  · rfl

theorem seGo_skip (l : List Char) : ∀ k, seGo k l = seGo 0 (l.drop k) := by
  induction l with
  | nil => intro k; cases k <;> rfl
  | cons c cs ih =>
    intro k
    cases k with
    | zero => rfl
    | succ k => simpa [seGo] using ih k

theorem subEntities_cons (c : Char) (cs : List Char) :
    subEntities (c :: cs) =
      if c = '&' ∧ cs.takeWhile isEntChar ≠ [] ∧
          (cs.dropWhile isEntChar).head? = some ';' then
        ' ' :: subEntities (cs.dropWhile isEntChar).tail
      else c :: subEntities cs := by
  show seGo 0 (c :: cs) = _
  rw [seGo]
  split
  · rw [seGo_skip, ← List.tail_drop, drop_takeWhile_length]; rfl
  · rfl

theorem pwGo_skip (l : List Char) : ∀ k, pwGo k l = pwGo 0 (l.drop k) := by
  induction l with
  | nil => intro k; cases k <;> rfl
  | cons c cs ih =>
    intro k
    cases k with
    | zero => rfl
    | succ k => simpa [pwGo] using ih k

theorem pyWords_cons (c : Char) (cs : List Char) :
    pyWords (c :: cs) =
      if c.isWhitespace then pyWords cs
      else (c :: cs.takeWhile (fun d => !d.isWhitespace)) ::
        pyWords (cs.dropWhile (fun d => !d.isWhitespace)) := by
  show pwGo 0 (c :: cs) = _
  rw [pwGo]
  split
  · rfl
  · rw [pwGo_skip, drop_takeWhile_length]; rfl

theorem replGo_skip (tgt repl : List Char) (l : List Char) :
    ∀ k, replGo tgt repl k l = replGo tgt repl 0 (l.drop k) := by
  induction l with
  | nil => intro k; cases k <;> rfl
  | cons c cs ih =>
    intro k
    cases k with
    | zero => rfl
    | succ k => simpa [replGo] using ih k

theorem replaceAllL_cons (tgt repl : List Char) (c : Char) (cs : List Char) :
    replaceAllL tgt repl (c :: cs) =
      if tgt ≠ [] ∧ tgt <+: (c :: cs) then
        repl ++ replaceAllL tgt repl ((c :: cs).drop tgt.length)
      else c :: replaceAllL tgt repl cs := by
  show replGo tgt repl 0 (c :: cs) = _
  rw [replGo]
  split
  · rename_i h
    rw [replGo_skip]
    have : cs.drop (tgt.length - 1) = (c :: cs).drop tgt.length := by
      cases tgt with
      | nil => exact absurd rfl h.1
      | cons t ts => simp
    rw [this]; rfl
  · rfl

/-! ### `clean_text` is idempotent and fully collapsed (claim C10) -/

theorem dropWhileGt_ne_nil_iff (cs : List Char) :
    cs.dropWhile (fun d => d ≠ '>') ≠ [] ↔ '>' ∈ cs := by
  rw [Ne, List.dropWhile_eq_nil_iff]
  simp

theorem takeWhileGt_eq_nil_iff (cs : List Char) :
    cs.takeWhile (fun d => d ≠ '>') = [] ↔ cs = [] ∨ ∃ cs', cs = '>' :: cs' := by
  cases cs with
  | nil => simp
  | cons c cs' =>
    simp only [List.takeWhile_cons]
    by_cases h : c = '>'
    · subst h; simp
    · simp [h]

theorem stripTags_nil : stripTags [] = [] := rfl

theorem dropWhile_head_not (p : Char → Bool) (l : List Char) (d : Char)
    (ds : List Char) (h : l.dropWhile p = d :: ds) : p d = false := by
  induction l with
  | nil => simp at h
  | cons c cs ih =>
    rw [List.dropWhile_cons] at h
    by_cases hc : p c
    · rw [if_pos hc] at h; exact ih h
    · rw [if_neg hc] at h; cases h; simpa using hc

theorem tail_dropWhile_length_lt (p : Char → Bool) (cs : List Char) :
    ((cs.dropWhile p).tail).length < cs.length + 1 := by
  have h1 : ((cs.dropWhile p).tail).length ≤ (cs.dropWhile p).length :=
    (List.tail_sublist _).length_le
  have h2 : (cs.dropWhile p).length ≤ cs.length :=
    (List.dropWhile_suffix p).sublist.length_le
  omega

theorem stripTags_sublist (l : List Char) : List.Sublist (stripTags l) l := by
  match l with
  | [] => exact List.Sublist.refl []
  | c :: cs =>
    rw [stripTags_cons]
    split
    · have h1 := stripTags_sublist ((cs.dropWhile (fun d => d ≠ '>')).tail)
      have h2 : List.Sublist ((cs.dropWhile (fun d => d ≠ '>')).tail) cs :=
        (List.tail_sublist _).trans (List.dropWhile_suffix _).sublist
      exact ((h1.trans h2).cons c)
    · exact (stripTags_sublist cs).cons₂ c
termination_by l.length
decreasing_by
  all_goals
    simp only [List.length_cons]
    first
    | omega
    | exact tail_dropWhile_length_lt _ cs

theorem stripTags_of_not_hasTag (l : List Char) (h : ¬ hasTag l) :
    stripTags l = l := by
  match l with
  | [] => rfl
  | c :: cs =>
    rw [stripTags_cons]
    simp only [hasTag, not_or] at h
    rw [if_neg h.1, stripTags_of_not_hasTag cs h.2]

theorem not_hasTag_stripTags (l : List Char) : ¬ hasTag (stripTags l) := by
  match l with
  | [] => simp [stripTags_nil, hasTag]
  | c :: cs =>
    rw [stripTags_cons]
    split
    · exact not_hasTag_stripTags ((cs.dropWhile (fun d => d ≠ '>')).tail)
    · rename_i hc
      intro hh
      simp only [hasTag] at hh
      rcases hh with ⟨h1, h2, h3⟩ | h4
      · -- a match would start at this `c`: transfer it back to `c :: cs`
        apply hc
        refine ⟨h1, ?_, ?_⟩
        · -- head of `cs` exists and is not '>'
          rw [Ne, takeWhileGt_eq_nil_iff]
          rintro (rfl | ⟨cs', rfl⟩)
          · simp [stripTags_nil] at h2
          · rw [stripTags_cons] at h2
            have hng : ¬('>' = '<' ∧ cs'.takeWhile (fun d => d ≠ '>') ≠ [] ∧
                cs'.dropWhile (fun d => d ≠ '>') ≠ []) := by
              intro hx; exact absurd hx.1 (by decide)
            rw [if_neg hng] at h2
            simp [List.takeWhile_cons] at h2
        · -- some '>' occurs in `cs`
          rw [dropWhileGt_ne_nil_iff]
          have h3' : '>' ∈ stripTags cs := by
            obtain ⟨d, ds, hds⟩ := List.exists_cons_of_ne_nil h3
            have hd0 : d ∈ (stripTags cs).dropWhile (fun d => d ≠ '>') := by
              rw [hds]; exact List.mem_cons_self _ _
            have hd : d ∈ stripTags cs :=
              (List.dropWhile_suffix (fun d => d ≠ '>')).sublist.mem hd0
            have hdgt : d = '>' := by
              have := dropWhile_head_not (fun d => d ≠ '>') (stripTags cs) d ds hds
              simpa using this
            rw [← hdgt]; exact hd
          exact (stripTags_sublist cs).mem h3'
      · exact not_hasTag_stripTags cs h4
termination_by l.length
decreasing_by
  all_goals
    simp only [List.length_cons]
    first
    | omega
    | exact tail_dropWhile_length_lt _ cs

theorem subEntities_nil : subEntities [] = [] := rfl

theorem hasTag_append_left (s t : List Char) (h : hasTag t) : hasTag (s ++ t) := by
  induction s with
  | nil => simpa using h
  | cons x s' ih => exact Or.inr ih

theorem mem_subEntities (l : List Char) (x : Char) (h : x ∈ subEntities l) :
    x ∈ l ∨ x = ' ' := by
  match l with
  | [] => simp [subEntities_nil] at h
  | c :: cs =>
    rw [subEntities_cons] at h
    split at h
    · rcases List.mem_cons.mp h with h1 | h2
      · exact Or.inr h1
      · rcases mem_subEntities _ x h2 with h3 | h4
        · have : x ∈ cs :=
            ((List.tail_suffix _).trans (List.dropWhile_suffix _)).sublist.mem h3
          exact Or.inl (List.mem_cons_of_mem c this)
        · exact Or.inr h4
    · rcases List.mem_cons.mp h with h1 | h2
      · exact Or.inl (h1 ▸ List.mem_cons_self c cs)
      · rcases mem_subEntities cs x h2 with h3 | h4
        · exact Or.inl (List.mem_cons_of_mem c h3)
        · exact Or.inr h4
termination_by l.length
decreasing_by
  all_goals
    simp only [List.length_cons]
    first
    | omega
    | exact tail_dropWhile_length_lt _ cs

theorem subEntities_of_not_hasEnt (l : List Char) (h : ¬ hasEnt l) :
    subEntities l = l := by
  match l with
  | [] => rfl
  | c :: cs =>
    rw [subEntities_cons]
    simp only [hasEnt, not_or] at h
    rw [if_neg h.1, subEntities_of_not_hasEnt cs h.2]

theorem subEntities_head (e : Char) (cs' : List Char) :
    (subEntities (e :: cs')).head? = some e ∨
      ((subEntities (e :: cs')).head? = some ' ' ∧ e = '&') := by
  rw [subEntities_cons]
  split
  · rename_i hc; exact Or.inr ⟨rfl, hc.1⟩
  · exact Or.inl rfl

theorem takeWhileGt_head (l : List Char) (d : Char) (hd : l.head? = some d) :
    l.takeWhile (fun x => x ≠ '>') = [] ↔ d = '>' := by
  cases l with
  | nil => simp at hd
  | cons c cs =>
    have : d = c := by simpa using hd.symm
    subst this
    rw [List.takeWhile_cons]
    by_cases h : d = '>'
    · simp [h]
    · simp [h]

theorem hasTag_of_hasTag_subEntities (l : List Char)
    (h : hasTag (subEntities l)) : hasTag l := by
  match l with
  | [] => simp [subEntities_nil, hasTag] at h
  | c :: cs =>
    rw [subEntities_cons] at h
    split at h
    · rcases h with ⟨hsp, _, _⟩ | h2
      · exact absurd hsp (by decide)
      · have h3 := hasTag_of_hasTag_subEntities _ h2
        obtain ⟨s, hs⟩ :=
          (List.tail_suffix (cs.dropWhile isEntChar)).trans
            (List.dropWhile_suffix isEntChar)
        exact Or.inr (hs ▸ hasTag_append_left s _ h3)
    · rcases h with ⟨h1, h2, h3⟩ | h4
      · refine Or.inl ⟨h1, ?_, ?_⟩
        · -- `cs` starts with a non-'>' character
          cases hcs : cs with
          | nil => rw [hcs] at h2; simp [subEntities_nil] at h2
          | cons e cs' =>
            rw [Ne, takeWhileGt_eq_nil_iff]
            rintro (heq | ⟨cs'', heq⟩)
            · simp at heq
            · -- then `e = '>'`, but the head of `subEntities cs` is `e` or a space
              have he : e = '>' := by injection heq
              rw [hcs] at h2
              rcases subEntities_head e cs' with hh | ⟨hh, hh2⟩
              · rw [ne_eq, takeWhileGt_head _ e hh] at h2; exact h2 he
              · rw [he] at hh2; exact absurd hh2 (by decide)
        · -- some '>' occurs in `cs`
          rw [dropWhileGt_ne_nil_iff]
          rw [ne_eq, List.dropWhile_eq_nil_iff] at h3
          push_neg at h3
          obtain ⟨x, hx, hxgt⟩ := h3
          have hxgt' : x = '>' := by simpa using hxgt
          rcases mem_subEntities cs x hx with hm | hm
          · exact hxgt' ▸ hm
          · exact absurd (hxgt'.symm.trans hm) (by decide)
      · exact Or.inr (hasTag_of_hasTag_subEntities cs h4)
termination_by l.length
decreasing_by
  all_goals
    simp only [List.length_cons]
    first
    | omega
    | exact tail_dropWhile_length_lt _ cs

theorem mem_takeWhile_sat (p : Char → Bool) (l : List Char) (x : Char)
    (h : x ∈ l.takeWhile p) : p x = true := by
  induction l with
  | nil => simp at h
  | cons c cs ih =>
    rw [List.takeWhile_cons] at h
    by_cases hc : p c
    · rw [if_pos hc] at h
      rcases List.mem_cons.mp h with h1 | h2
      · exact h1 ▸ hc
      · exact ih h2
    · rw [if_neg hc] at h; simp at h

theorem dropWhile_append_all (p : Char → Bool) (L X : List Char)
    (hL : ∀ x ∈ L, p x = true) : (L ++ X).dropWhile p = X.dropWhile p := by
  induction L with
  | nil => rfl
  | cons x L' ih =>
    rw [List.cons_append, List.dropWhile_cons,
      if_pos (hL x (List.mem_cons_self x L'))]
    exact ih (fun y hy => hL y (List.mem_cons_of_mem x hy))

theorem subEntities_append_ents (L r : List Char)
    (hL : ∀ x ∈ L, isEntChar x = true) :
    subEntities (L ++ r) = L ++ subEntities r := by
  induction L with
  | nil => rfl
  | cons x L' ih =>
    rw [List.cons_append, subEntities_cons]
    have hx : isEntChar x = true := hL x (List.mem_cons_self x L')
    have hxamp : x ≠ '&' := by
      intro hxe; rw [hxe] at hx; exact absurd hx (by decide)
    rw [if_neg (fun hcond => hxamp hcond.1)]
    rw [ih (fun y hy => hL y (List.mem_cons_of_mem x hy))]
    simp

theorem not_hasEnt_subEntities (l : List Char) : ¬ hasEnt (subEntities l) := by
  match l with
  | [] => simp [subEntities_nil, hasEnt]
  | c :: cs =>
    rw [subEntities_cons]
    split
    · intro hh
      rcases hh with ⟨hsp, _, _⟩ | h2
      · exact absurd hsp (by decide)
      · exact not_hasEnt_subEntities _ h2
    · rename_i hc
      intro hh
      rcases hh with ⟨hc1, hc2, hc3⟩ | h4
      · -- an entity match would start at this `c`
        have hnb : ¬(cs.takeWhile isEntChar ≠ [] ∧
            (cs.dropWhile isEntChar).head? = some ';') :=
          fun hb => hc ⟨hc1, hb.1, hb.2⟩
        by_cases hA : cs.takeWhile isEntChar = []
        · -- `cs` does not start with a letter, hence neither does
          -- `subEntities cs`
          cases hcs : cs with
          | nil => rw [hcs] at hc2; simp [subEntities_nil] at hc2
          | cons e cs' =>
            have he : isEntChar e = false := by
              rw [hcs, List.takeWhile_cons] at hA
              by_cases hee : isEntChar e
              · rw [if_pos hee] at hA; simp at hA
              · simpa using hee
            rw [hcs] at hc2
            rcases subEntities_head e cs' with hh | ⟨hh, _⟩
            · obtain ⟨Y, hY⟩ : ∃ Y, subEntities (e :: cs') = e :: Y := by
                cases hse : subEntities (e :: cs') with
                | nil => rw [hse] at hh; simp at hh
                | cons z zs =>
                  rw [hse] at hh
                  have : z = e := by simpa using hh
                  exact ⟨zs, by rw [this]⟩
              rw [hY, List.takeWhile_cons, if_neg (by simp [he])] at hc2
              exact hc2 rfl
            · obtain ⟨Y, hY⟩ : ∃ Y, subEntities (e :: cs') = ' ' :: Y := by
                cases hse : subEntities (e :: cs') with
                | nil => rw [hse] at hh; simp at hh
                | cons z zs =>
                  rw [hse] at hh
                  have : z = ' ' := by simpa using hh
                  exact ⟨zs, by rw [this]⟩
              rw [hY, List.takeWhile_cons, if_neg (by decide)] at hc2
              exact hc2 rfl
        · -- `cs` starts with letters but the run is not closed by ';'
          have hB : (cs.dropWhile isEntChar).head? ≠ some ';' :=
            fun hb => hnb ⟨hA, hb⟩
          have hdec : cs.takeWhile isEntChar ++ cs.dropWhile isEntChar = cs :=
            List.takeWhile_append_dropWhile isEntChar cs
          have hsub : subEntities cs =
              cs.takeWhile isEntChar ++ subEntities (cs.dropWhile isEntChar) := by
            conv_lhs => rw [← hdec]
            exact subEntities_append_ents _ _
              (fun x hx => mem_takeWhile_sat isEntChar cs x hx)
          have hdw : (subEntities cs).dropWhile isEntChar =
              (subEntities (cs.dropWhile isEntChar)).dropWhile isEntChar := by
            rw [hsub]
            exact dropWhile_append_all isEntChar _ _
              (fun x hx => mem_takeWhile_sat isEntChar cs x hx)
          rw [hdw] at hc3
          cases hrest : cs.dropWhile isEntChar with
          | nil => rw [hrest] at hc3; simp [subEntities_nil] at hc3
          | cons e rest' =>
            have he : isEntChar e = false :=
              dropWhile_head_not isEntChar cs e rest' hrest
            have hesemi : e ≠ ';' := by
              intro hsemi
              rw [hrest] at hB
              exact hB (by rw [hsemi]; rfl)
            rw [hrest] at hc3
            rcases subEntities_head e rest' with hh | ⟨hh, _⟩
            · obtain ⟨Y, hY⟩ : ∃ Y, subEntities (e :: rest') = e :: Y := by
                cases hse : subEntities (e :: rest') with
                | nil => rw [hse] at hh; simp at hh
                | cons z zs =>
                  rw [hse] at hh
                  have : z = e := by simpa using hh
                  exact ⟨zs, by rw [this]⟩
              rw [hY, List.dropWhile_cons, if_neg (by simp [he])] at hc3
              simp at hc3
              exact hesemi hc3
            · obtain ⟨Y, hY⟩ : ∃ Y, subEntities (e :: rest') = ' ' :: Y := by
                cases hse : subEntities (e :: rest') with
                | nil => rw [hse] at hh; simp at hh
                | cons z zs =>
                  rw [hse] at hh
                  have : z = ' ' := by simpa using hh
                  exact ⟨zs, by rw [this]⟩
              rw [hY, List.dropWhile_cons, if_neg (by decide)] at hc3
              simp at hc3
      · exact not_hasEnt_subEntities cs h4
termination_by l.length
decreasing_by
  all_goals
    simp only [List.length_cons]
    first
    | omega
    | exact tail_dropWhile_length_lt _ cs

theorem pyWords_nil : pyWords [] = [] := rfl

theorem cw_nil : cw [] = [] := rfl

theorem cwIn_nil : cwIn [] = [] := rfl

theorem pyWords_ne_nil (l : List Char) (w : List Char) (h : w ∈ pyWords l) :
    w ≠ [] := by
  match l with
  | [] => simp [pyWords_nil] at h
  | c :: cs =>
    rw [pyWords_cons] at h
    split at h
    · exact pyWords_ne_nil cs w h
    · rcases List.mem_cons.mp h with h1 | h2
      · simp [h1]
      · exact pyWords_ne_nil _ w h2
termination_by l.length
decreasing_by
  all_goals
    simp only [List.length_cons]
    first
    | omega
    | exact Nat.lt_succ_of_le (List.dropWhile_suffix _).sublist.length_le

theorem joinWords_ne_nil (W : List (List Char))
    (hW : ∀ w ∈ W, w ≠ []) (hne : W ≠ []) : joinWords W ≠ [] := by
  match W with
  | [] => exact absurd rfl hne
  | [w] => exact hW w (List.mem_cons_self _ _)
  | w :: w' :: ws =>
    show w ++ ' ' :: joinWords (w' :: ws) ≠ []
    simp

theorem cw_cons (c : Char) (cs : List Char) :
    cw (c :: cs) = if c.isWhitespace then cw cs else c :: cwIn cs := rfl

theorem cwIn_cons (c : Char) (cs : List Char) :
    cwIn (c :: cs) =
      if c.isWhitespace then (if (cw cs).isEmpty then [] else ' ' :: cw cs)
      else c :: cwIn cs := rfl

theorem cwIn_eq (l : List Char) :
    cwIn l = l.takeWhile (fun d => !d.isWhitespace) ++
      (if cw (l.dropWhile (fun d => !d.isWhitespace)) = [] then []
       else ' ' :: cw (l.dropWhile (fun d => !d.isWhitespace))) := by
  induction l with
  | nil => simp [cwIn_nil, cw_nil]
  | cons c cs ih =>
    by_cases hc : c.isWhitespace
    · have hdw : (c :: cs).dropWhile (fun d => !d.isWhitespace) = c :: cs := by
        rw [List.dropWhile_cons, if_neg (by simp [hc])]
      have htw : (c :: cs).takeWhile (fun d => !d.isWhitespace) = [] := by
        rw [List.takeWhile_cons, if_neg (by simp [hc])]
      rw [cwIn_cons, if_pos hc, hdw, htw, List.nil_append, cw_cons, if_pos hc]
      cases hval : cw cs <;> simp [List.isEmpty]
    · have hdw : (c :: cs).dropWhile (fun d => !d.isWhitespace) =
          cs.dropWhile (fun d => !d.isWhitespace) := by
        rw [List.dropWhile_cons, if_pos (by simp [hc])]
      have htw : (c :: cs).takeWhile (fun d => !d.isWhitespace) =
          c :: cs.takeWhile (fun d => !d.isWhitespace) := by
        rw [List.takeWhile_cons, if_pos (by simp [hc])]
      rw [cwIn_cons, if_neg hc, hdw, htw, List.cons_append, ih]

theorem joinWords_cons (w : List Char) (W : List (List Char)) :
    joinWords (w :: W) = if W = [] then w else w ++ ' ' :: joinWords W := by
  cases W with
  | nil => rfl
  | cons w' ws => rfl

theorem cw_eq_joinWords (l : List Char) : cw l = joinWords (pyWords l) := by
  match l with
  | [] => rfl
  | c :: cs =>
    rw [cw_cons, pyWords_cons]
    by_cases hc : c.isWhitespace
    · rw [if_pos hc, if_pos hc, cw_eq_joinWords cs]
    · rw [if_neg hc, if_neg hc, cwIn_eq, joinWords_cons]
      have hrec := cw_eq_joinWords (cs.dropWhile (fun d => !d.isWhitespace))
      by_cases hW : pyWords (cs.dropWhile (fun d => !d.isWhitespace)) = []
      · rw [if_pos hW]
        rw [hW] at hrec
        rw [hrec]
        simp [joinWords]
      · rw [if_neg hW]
        have hne : joinWords (pyWords (cs.dropWhile (fun d => !d.isWhitespace))) ≠ [] :=
          joinWords_ne_nil _ (fun w hw => pyWords_ne_nil _ w hw) hW
        rw [hrec, if_neg hne]
        simp
termination_by l.length
decreasing_by
  all_goals
    simp only [List.length_cons]
    first
    | omega
    | exact Nat.lt_succ_of_le (List.dropWhile_suffix _).sublist.length_le

theorem getLast?_cons_ne (c : Char) (X : List Char) (h : X ≠ []) :
    (c :: X).getLast? = X.getLast? := by
  cases X with
  | nil => exact absurd rfl h
  | cons y ys => exact List.getLast?_cons_cons

theorem mem_cw_cwIn (l : List Char) :
    (∀ x ∈ cw l, x ∈ l ∨ x = ' ') ∧ (∀ x ∈ cwIn l, x ∈ l ∨ x = ' ') := by
  induction l with
  | nil => simp [cw_nil, cwIn_nil]
  | cons c cs ih =>
    constructor
    · intro x hx
      rw [cw_cons] at hx
      by_cases hc : c.isWhitespace
      · rw [if_pos hc] at hx
        rcases ih.1 x hx with h | h
        · exact Or.inl (List.mem_cons_of_mem c h)
        · exact Or.inr h
      · rw [if_neg hc] at hx
        rcases List.mem_cons.mp hx with h | h
        · exact Or.inl (h ▸ List.mem_cons_self c cs)
        · rcases ih.2 x h with h' | h'
          · exact Or.inl (List.mem_cons_of_mem c h')
          · exact Or.inr h'
    · intro x hx
      rw [cwIn_cons] at hx
      by_cases hc : c.isWhitespace
      · rw [if_pos hc] at hx
        by_cases hcw : (cw cs).isEmpty
        · rw [if_pos hcw] at hx; simp at hx
        · rw [if_neg hcw] at hx
          rcases List.mem_cons.mp hx with h | h
          · exact Or.inr h
          · rcases ih.1 x h with h' | h'
            · exact Or.inl (List.mem_cons_of_mem c h')
            · exact Or.inr h'
      · rw [if_neg hc] at hx
        rcases List.mem_cons.mp hx with h | h
        · exact Or.inl (h ▸ List.mem_cons_self c cs)
        · rcases ih.2 x h with h' | h'
          · exact Or.inl (List.mem_cons_of_mem c h')
          · exact Or.inr h'

theorem hasTag_cw_cwIn (l : List Char) :
    (hasTag (cw l) → hasTag l) ∧ (hasTag (cwIn l) → hasTag l) := by
  induction l with
  | nil => simp [cw_nil, cwIn_nil, hasTag]
  | cons c cs ih =>
    have transfer : hasTag (c :: cwIn cs) → hasTag (c :: cs) := by
      intro h
      rcases h with ⟨h1, h2, h3⟩ | h4
      · refine Or.inl ⟨h1, ?_, ?_⟩
        · rw [Ne, takeWhileGt_eq_nil_iff]
          rintro (rfl | ⟨cs', rfl⟩)
          · simp [cwIn_nil] at h2
          · rw [cwIn_cons, if_neg (by decide)] at h2
            rw [List.takeWhile_cons, if_neg (by decide)] at h2
            exact h2 rfl
        · rw [dropWhileGt_ne_nil_iff]
          rw [ne_eq, List.dropWhile_eq_nil_iff] at h3
          push_neg at h3
          obtain ⟨x, hx, hxgt⟩ := h3
          have hxgt' : x = '>' := by simpa using hxgt
          rcases (mem_cw_cwIn cs).2 x hx with hm | hm
          · exact hxgt' ▸ hm
          · exact absurd (hxgt'.symm.trans hm) (by decide)
      · exact Or.inr (ih.2 h4)
    constructor
    · intro h
      rw [cw_cons] at h
      by_cases hc : c.isWhitespace
      · rw [if_pos hc] at h; exact Or.inr (ih.1 h)
      · rw [if_neg hc] at h; exact transfer h
    · intro h
      rw [cwIn_cons] at h
      by_cases hc : c.isWhitespace
      · rw [if_pos hc] at h
        by_cases hcw : (cw cs).isEmpty
        · rw [if_pos hcw] at h; simp [hasTag] at h
        · rw [if_neg hcw] at h
          rcases h with ⟨hsp, _, _⟩ | h2
          · exact absurd hsp (by decide)
          · exact Or.inr (ih.1 h2)
      · rw [if_neg hc] at h; exact transfer h

theorem cwIn_dropEnt_head (l : List Char)
    (h : ((cwIn l).dropWhile isEntChar).head? = some ';') :
    (l.dropWhile isEntChar).head? = some ';' := by
  induction l with
  | nil => simp [cwIn_nil] at h
  | cons e cs' ih =>
    rw [cwIn_cons] at h
    by_cases hws : e.isWhitespace
    · rw [if_pos hws] at h
      by_cases hcw : (cw cs').isEmpty
      · rw [if_pos hcw] at h; simp at h
      · rw [if_neg hcw, List.dropWhile_cons, if_neg (by decide)] at h
        simp at h
    · rw [if_neg hws] at h
      by_cases hent : isEntChar e
      · rw [List.dropWhile_cons, if_pos hent] at h
        rw [List.dropWhile_cons, if_pos hent]
        exact ih h
      · rw [List.dropWhile_cons, if_neg hent] at h
        simp only [List.head?_cons, Option.some.injEq] at h
        rw [List.dropWhile_cons, if_neg hent]
        simp [h]

theorem cwIn_takeEnt_ne (l : List Char)
    (h : (cwIn l).takeWhile isEntChar ≠ []) :
    l.takeWhile isEntChar ≠ [] := by
  induction l with
  | nil => simp [cwIn_nil] at h
  | cons e cs' ih =>
    rw [cwIn_cons] at h
    by_cases hws : e.isWhitespace
    · rw [if_pos hws] at h
      by_cases hcw : (cw cs').isEmpty
      · rw [if_pos hcw] at h; simp at h
      · rw [if_neg hcw, List.takeWhile_cons, if_neg (by decide)] at h
        simp at h
    · rw [if_neg hws] at h
      by_cases hent : isEntChar e
      · rw [List.takeWhile_cons, if_pos hent]
        simp
      · rw [List.takeWhile_cons, if_neg hent] at h
        simp at h

theorem hasEnt_cw_cwIn (l : List Char) :
    (hasEnt (cw l) → hasEnt l) ∧ (hasEnt (cwIn l) → hasEnt l) := by
  induction l with
  | nil => simp [cw_nil, cwIn_nil, hasEnt]
  | cons c cs ih =>
    have transfer : hasEnt (c :: cwIn cs) → hasEnt (c :: cs) := by
      intro h
      rcases h with ⟨h1, h2, h3⟩ | h4
      · exact Or.inl ⟨h1, cwIn_takeEnt_ne cs h2, cwIn_dropEnt_head cs h3⟩
      · exact Or.inr (ih.2 h4)
    constructor
    · intro h
      rw [cw_cons] at h
      by_cases hc : c.isWhitespace
      · rw [if_pos hc] at h; exact Or.inr (ih.1 h)
      · rw [if_neg hc] at h; exact transfer h
    · intro h
      rw [cwIn_cons] at h
      by_cases hc : c.isWhitespace
      · rw [if_pos hc] at h
        by_cases hcw : (cw cs).isEmpty
        · rw [if_pos hcw] at h; simp [hasEnt] at h
        · rw [if_neg hcw] at h
          rcases h with ⟨hsp, _, _⟩ | h2
          · exact absurd hsp (by decide)
          · exact Or.inr (ih.1 h2)
      · rw [if_neg hc] at h; exact transfer h

theorem good_cw_cwIn (l : List Char) :
    ((∀ c, (cw l).head? = some c → c.isWhitespace = false) ∧
     (∀ c, (cw l).getLast? = some c → c.isWhitespace = false) ∧
     noWsRun (cw l) ∧ (∀ c ∈ cw l, c.isWhitespace = true → c = ' ')) ∧
    ((∀ c, (cwIn l).head? = some c → c.isWhitespace = false ∨ c = ' ') ∧
     (∀ c, (cwIn l).getLast? = some c → c.isWhitespace = false) ∧
     noWsRun (cwIn l) ∧ (∀ c ∈ cwIn l, c.isWhitespace = true → c = ' ')) := by
  induction l with
  | nil => simp [cw_nil, cwIn_nil, noWsRun]
  | cons c cs ih =>
    have nonws : c.isWhitespace = false →
        (∀ x, (c :: cwIn cs).head? = some x → x.isWhitespace = false) ∧
        (∀ x, (c :: cwIn cs).getLast? = some x → x.isWhitespace = false) ∧
        noWsRun (c :: cwIn cs) ∧
        (∀ x ∈ c :: cwIn cs, x.isWhitespace = true → x = ' ') := by
      intro hc
      refine ⟨?_, ?_, ?_, ?_⟩
      · intro x hx
        simp only [List.head?_cons, Option.some.injEq] at hx
        exact hx ▸ hc
      · intro x hx
        cases hcs : cwIn cs with
        | nil =>
          rw [hcs] at hx
          simp only [List.getLast?_singleton, Option.some.injEq] at hx
          exact hx ▸ hc
        | cons y ys =>
          rw [hcs, List.getLast?_cons_cons] at hx
          refine ih.2.2.1 x ?_
          rw [hcs]
          exact hx
      · rw [noWsRun, List.chain'_cons']
        refine ⟨fun y hy => ?_, ih.2.2.2.1⟩
        intro hcon
        rw [hc] at hcon
        exact Bool.false_ne_true hcon.1
      · intro x hx hws
        rcases List.mem_cons.mp hx with h | h
        · rw [h] at hws; rw [hws] at hc; cases hc
        · exact ih.2.2.2.2 x h hws
    constructor
    · rw [cw_cons]
      by_cases hc : c.isWhitespace
      · rw [if_pos hc]; exact ih.1
      · rw [if_neg hc]
        have h := nonws (by simpa using hc)
        exact ⟨h.1, h.2.1, h.2.2.1, h.2.2.2⟩
    · rw [cwIn_cons]
      by_cases hc : c.isWhitespace
      · rw [if_pos hc]
        by_cases hcw : (cw cs).isEmpty
        · rw [if_pos hcw]; simp [noWsRun]
        · rw [if_neg hcw]
          have hcwne : cw cs ≠ [] := by
            intro hx; rw [hx] at hcw; exact hcw rfl
          refine ⟨?_, ?_, ?_, ?_⟩
          · intro x hx
            simp only [List.head?_cons, Option.some.injEq] at hx
            exact Or.inr hx.symm
          · intro x hx
            rw [getLast?_cons_ne _ _ hcwne] at hx
            exact ih.1.2.1 x hx
          · rw [noWsRun, List.chain'_cons']
            refine ⟨fun y hy => ?_, ih.1.2.2.1⟩
            intro hcon
            have hynws : y.isWhitespace = false := by
              cases hm : (cw cs).head? with
              | none => rw [hm] at hy; cases hy
              | some z =>
                rw [hm] at hy
                have hyz : y = z := by simpa using hy.symm
                exact hyz ▸ ih.1.1 z hm
            rw [hynws] at hcon
            exact Bool.false_ne_true hcon.2
          · intro x hx hws
            rcases List.mem_cons.mp hx with h | h
            · exact h
            · exact ih.1.2.2.2 x h hws
      · rw [if_neg hc]
        have h := nonws (by simpa using hc)
        exact ⟨fun x hx => Or.inl (h.1 x hx), h.2.1, h.2.2.1, h.2.2.2⟩

theorem collapsed_cw_fix (l : List Char) :
    (((∀ c, l.head? = some c → c.isWhitespace = false) ∧
      (∀ c, l.getLast? = some c → c.isWhitespace = false) ∧
      noWsRun l ∧ (∀ c ∈ l, c.isWhitespace = true → c = ' ')) → cw l = l) ∧
    (((∀ c, l.getLast? = some c → c.isWhitespace = false) ∧
      noWsRun l ∧ (∀ c ∈ l, c.isWhitespace = true → c = ' ')) → cwIn l = l) := by
  induction l with
  | nil => simp [cw_nil, cwIn_nil]
  | cons c cs ih =>
    have tailHyp : (∀ x, (c :: cs).getLast? = some x → x.isWhitespace = false) →
        noWsRun (c :: cs) → (∀ x ∈ c :: cs, x.isWhitespace = true → x = ' ') →
        (∀ x, cs.getLast? = some x → x.isWhitespace = false) ∧
        noWsRun cs ∧ (∀ x ∈ cs, x.isWhitespace = true → x = ' ') := by
      intro hlast hchain hmem
      refine ⟨?_, (List.Chain'.tail hchain : noWsRun cs), ?_⟩
      · intro x hx
        refine hlast x ?_
        rw [getLast?_cons_ne c cs (by intro hnil; rw [hnil] at hx; cases hx)]
        exact hx
      · exact fun x hx hws => hmem x (List.mem_cons_of_mem c hx) hws
    constructor
    · rintro ⟨hhead, hlast, hchain, hmem⟩
      have hc : c.isWhitespace = false := hhead c rfl
      rw [cw_cons, if_neg (by simp [hc])]
      have ht := tailHyp hlast hchain hmem
      rw [ih.2 ht]
    · rintro ⟨hlast, hchain, hmem⟩
      by_cases hc : c.isWhitespace
      · -- a single interior space: the rest is a non-empty word run
        have hcsp : c = ' ' := hmem c (List.mem_cons_self c cs) hc
        cases hcs : cs with
        | nil =>
          rw [hcs] at hlast
          have := hlast c (List.getLast?_singleton c)
          rw [hc] at this; cases this
        | cons y ys =>
          have hyn : y.isWhitespace = false := by
            rw [noWsRun, hcs, List.chain'_cons'] at hchain
            have := hchain.1 y rfl
            by_cases hy : y.isWhitespace
            · exact absurd ⟨hc, hy⟩ this
            · simpa using hy
          have hcw : cw cs = cs := by
            refine ih.1 ⟨?_, ?_, ?_, ?_⟩
            · intro x hx
              rw [hcs] at hx
              have : x = y := by simpa using hx.symm
              exact this ▸ hyn
            · intro x hx
              refine hlast x ?_
              rw [getLast?_cons_ne c cs (by rw [hcs]; simp)]
              exact hx
            · exact List.Chain'.tail hchain
            · exact fun x hx hws => hmem x (List.mem_cons_of_mem c hx) hws
          rw [hcs] at hcw
          rw [cwIn_cons, if_pos hc, hcw, if_neg (by simp [List.isEmpty])]
          rw [hcsp]
      · rw [cwIn_cons, if_neg hc]
        have ht := tailHyp hlast hchain hmem
        rw [ih.2 ht]

theorem dropWhile_eq_self_of_head (p : Char → Bool) (l : List Char)
    (h : ∀ c, l.head? = some c → p c = false) : l.dropWhile p = l := by
  cases l with
  | nil => rfl
  | cons c cs =>
    rw [List.dropWhile_cons, if_neg (by rw [h c rfl]; simp)]

theorem pyStrip_eq_self (l : List Char)
    (hh : ∀ c, l.head? = some c → c.isWhitespace = false)
    (hl : ∀ c, l.getLast? = some c → c.isWhitespace = false) :
    pyStrip l = l := by
  rw [pyStrip, dropWhile_eq_self_of_head _ l hh]
  rw [dropWhile_eq_self_of_head _ l.reverse
    (fun c hc => hl c (by rwa [List.head?_reverse] at hc))]
  exact List.reverse_reverse l

theorem clean_text_eq (s : String) (h : ¬ s = "") :
    clean_text s = String.mk (cw (subEntities (stripTags s.data))) := by
  rw [clean_text, if_neg h]
  congr 1
  rw [← cw_eq_joinWords]
  exact pyStrip_eq_self _ (good_cw_cwIn _).1.1 (good_cw_cwIn _).1.2.1

/-- C10: text cleaning is idempotent — `clean_text (clean_text t) =
clean_text t` for every string `t` — and the output of `clean_text` has
no leading or trailing whitespace and contains no run of two or more
consecutive whitespace characters. -/
theorem claim_C10 (s : String) :
    clean_text (clean_text s) = clean_text s ∧
    noWsEnds (clean_text s).data ∧ noWsRun (clean_text s).data := by
  by_cases h : s = ""
  · subst h
    refine ⟨rfl, ⟨?_, ?_⟩, ?_⟩
    · intro c hc; cases hc
    · intro c hc; cases hc
    · exact List.chain'_nil
  · have hdata : (clean_text s).data = cw (subEntities (stripTags s.data)) := by
      rw [clean_text_eq s h]
    have hgood := (good_cw_cwIn (subEntities (stripTags s.data))).1
    have hO := clean_text_eq s h
    -- the collapsed output and its regex-freeness
    have hnt : ¬ hasTag (cw (subEntities (stripTags s.data))) := fun hh =>
      not_hasTag_stripTags s.data
        (hasTag_of_hasTag_subEntities _ ((hasTag_cw_cwIn _).1 hh))
    have hne : ¬ hasEnt (cw (subEntities (stripTags s.data))) := fun hh =>
      not_hasEnt_subEntities _ ((hasEnt_cw_cwIn _).1 hh)
    refine ⟨?_, ⟨?_, ?_⟩, ?_⟩
    · -- idempotence
      by_cases hnil : cw (subEntities (stripTags s.data)) = []
      · rw [hO, hnil]
        rfl
      · have hmkne : ¬ String.mk (cw (subEntities (stripTags s.data))) = "" := by
          intro hx
          exact hnil (congrArg String.data hx)
        rw [hO, clean_text_eq _ hmkne]
        have hdd : (String.mk (cw (subEntities (stripTags s.data)))).data =
            cw (subEntities (stripTags s.data)) := rfl
        rw [hdd]
        rw [stripTags_of_not_hasTag _ hnt, subEntities_of_not_hasEnt _ hne]
        congr 1
        exact (collapsed_cw_fix _).1 ⟨hgood.1, hgood.2.1, hgood.2.2.1, hgood.2.2.2⟩
    · rw [hdata]; exact fun c hc => hgood.1 c hc
    · rw [hdata]; exact fun c hc => hgood.2.1 c hc
    · rw [hdata]; exact hgood.2.2.1

/-! ### Deduplication (claims C6 and C9) -/

theorem dedupGoFree_idem (l : List Article) :
    ∀ seen, dedupGoFree (dedupGoFree l seen) seen = dedupGoFree l seen := by
  induction l with
  | nil => intro seen; rfl
  | cons a rest ih =>
    intro seen
    by_cases h : seen.any (fun s => isDupOf s (normTitle a.title))
    · rw [dedupGoFree, if_pos h, ih seen]
    · rw [dedupGoFree, if_neg h, dedupGoFree, if_neg h, ih]

theorem dedupGoMain_idem (l : List Article) :
    ∀ seen, dedupGoMain (dedupGoMain l seen) seen = dedupGoMain l seen := by
  induction l with
  | nil => intro seen; rfl
  | cons a rest ih =>
    intro seen
    by_cases h : seen.contains (titleKey a)
    · rw [dedupGoMain, if_pos h, ih seen]
    · rw [dedupGoMain, if_neg h, dedupGoMain, if_neg h, ih]

/-- C6: deduplication is idempotent in both pipeline variants — applying
`remove_duplicates` to its own output returns that output unchanged. -/
theorem claim_C6 (l : List Article) :
    FetchFree.remove_duplicates (FetchFree.remove_duplicates l) =
      FetchFree.remove_duplicates l ∧
    FetchMain.remove_duplicates (FetchMain.remove_duplicates l) =
      FetchMain.remove_duplicates l :=
  ⟨dedupGoFree_idem l [], dedupGoMain_idem l []⟩

theorem dedupGoFree_sublist (l : List Article) (seen : List String) :
    List.Sublist (dedupGoFree l seen) l := by
  induction l generalizing seen with
  | nil => exact List.Sublist.refl []
  | cons a rest ih =>
    rw [dedupGoFree]
    split
    · exact (ih seen).cons a
    · exact (ih _).cons₂ a

theorem dedupGoMain_sublist (l : List Article) (seen : List String) :
    List.Sublist (dedupGoMain l seen) l := by
  induction l generalizing seen with
  | nil => exact List.Sublist.refl []
  | cons a rest ih =>
    rw [dedupGoMain]
    split
    · exact (ih seen).cons a
    · exact (ih _).cons₂ a

theorem dedupGoMain_keys (l : List Article) (seen : List String) :
    ((dedupGoMain l seen).map titleKey).Nodup ∧
    ∀ b ∈ dedupGoMain l seen, titleKey b ∉ seen := by
  induction l generalizing seen with
  | nil => simp [dedupGoMain]
  | cons a rest ih =>
    rw [dedupGoMain]
    by_cases h : seen.contains (titleKey a)
    · rw [if_pos h]; exact ih seen
    · rw [if_neg h]
      have hmem : titleKey a ∉ seen := by
        intro hx
        exact h (List.elem_eq_true_of_mem hx)
      obtain ⟨ihn, ihs⟩ := ih (titleKey a :: seen)
      refine ⟨?_, ?_⟩
      · rw [List.map_cons, List.nodup_cons]
        refine ⟨?_, ihn⟩
        intro hx
        obtain ⟨b, hb, hkb⟩ := List.mem_map.mp hx
        exact ihs b hb (by rw [hkb]; exact List.mem_cons_self _ _)
      · intro b hb
        rcases List.mem_cons.mp hb with h1 | h2
        · exact h1 ▸ hmem
        · exact fun hx => ihs b h2 (List.mem_cons_of_mem _ hx)

theorem dedupGoMain_covers (l : List Article) (seen : List String) :
    ∀ a ∈ l, titleKey a ∈ seen ∨
      ∃ b ∈ dedupGoMain l seen, titleKey b = titleKey a := by
  induction l generalizing seen with
  | nil => simp
  | cons a0 rest ih =>
    intro a ha
    rw [dedupGoMain]
    by_cases h : seen.contains (titleKey a0)
    · rw [if_pos h]
      rcases List.mem_cons.mp ha with h1 | h2
      · exact Or.inl (h1 ▸ List.mem_of_elem_eq_true h)
      · exact ih seen a h2
    · rw [if_neg h]
      rcases List.mem_cons.mp ha with h1 | h2
      · exact Or.inr ⟨a0, List.mem_cons_self _ _, by rw [h1]⟩
      · rcases ih (titleKey a0 :: seen) a h2 with h3 | ⟨b, hb, hkb⟩
        · rcases List.mem_cons.mp h3 with h4 | h5
          · exact Or.inr ⟨a0, List.mem_cons_self _ _, h4.symm⟩
          · exact Or.inl h5
        · exact Or.inr ⟨b, List.mem_cons_of_mem _ hb, hkb⟩

theorem dedupGoMain_earliest (l : List Article) (seen : List String) :
    ∀ b ∈ dedupGoMain l seen,
      l.find? (fun x => titleKey x == titleKey b) = some b := by
  induction l generalizing seen with
  | nil => simp [dedupGoMain]
  | cons a0 rest ih =>
    intro b hb
    rw [dedupGoMain] at hb
    by_cases h : seen.contains (titleKey a0)
    · rw [if_pos h] at hb
      have hkb : titleKey b ∉ seen := (dedupGoMain_keys rest seen).2 b hb
      have hne : titleKey a0 ≠ titleKey b := by
        intro hx
        exact hkb (hx ▸ List.mem_of_elem_eq_true h)
      rw [List.find?_cons_of_neg _ (by simpa using hne)]
      exact ih seen b hb
    · rw [if_neg h] at hb
      rcases List.mem_cons.mp hb with h1 | h2
      · subst h1
        rw [List.find?_cons_of_pos _ (by simp)]
      · have hkb : titleKey b ∉ titleKey a0 :: seen :=
          (dedupGoMain_keys rest _).2 b h2
        have hne : titleKey a0 ≠ titleKey b := by
          intro hx
          exact hkb (hx ▸ List.mem_cons_self _ _)
        rw [List.find?_cons_of_neg _ (by simpa using hne)]
        exact ih _ b h2

theorem dedupGoFree_no_earlier_dup (l : List Article) :
    ∀ seen pre b post, dedupGoFree l seen = pre ++ b :: post →
      ∀ s, s ∈ (pre.map (fun x => normTitle x.title)) ++ seen →
        isDupOf s (normTitle b.title) = false := by
  induction l with
  | nil =>
    intro seen pre b post h
    simp [dedupGoFree] at h
  | cons a rest ih =>
    intro seen pre b post h s hs
    rw [dedupGoFree] at h
    by_cases hd : seen.any (fun s => isDupOf s (normTitle a.title))
    · rw [if_pos hd] at h
      exact ih seen pre b post h s hs
    · rw [if_neg hd] at h
      cases pre with
      | nil =>
        simp only [List.cons.injEq, List.nil_append] at h
        obtain ⟨hab, _⟩ := h
        simp only [List.map_nil, List.nil_append] at hs
        have := List.any_eq_false.mp (by simpa using hd) s hs
        rw [← hab]
        simpa using this
      | cons p0 pre' =>
        simp only [List.cons_append, List.cons.injEq] at h
        obtain ⟨hap, hrest⟩ := h
        have ihs := ih (normTitle a.title :: seen) pre' b post hrest
        simp only [List.map_cons, List.cons_append, List.mem_cons,
          List.mem_append] at hs
        rcases hs with h1 | h2
        · -- `s` is the normalized title of the first kept article
          rw [h1, ← hap]
          exact ihs (normTitle a.title)
            (List.mem_append.mpr (Or.inr (List.mem_cons_self _ _)))
        · rcases h2 with h3 | h4
          · exact ihs s (List.mem_append.mpr (Or.inl h3))
          · exact ihs s
              (List.mem_append.mpr (Or.inr (List.mem_cons_of_mem _ h4)))

/-- C9 (counterexample): in the fuzzy deduplicator of
`fetch-news-free.py`, the articles `fxB` and `fxC` are judged duplicates
of one another, yet on the input `[fxA, fxB, fxC]` the deduplicator keeps
`fxC` — a non-earliest member of that duplicate group — and drops `fxB`,
because `fxB` is absorbed by `fxA` while `fxC` escapes it. -/
theorem claim_C9_counterexample :
    FetchFree.remove_duplicates [fxA, fxB, fxC] = [fxA, fxC] ∧
    isDupOf (normTitle fxB.title) (normTitle fxC.title) = true ∧
    isDupOf (normTitle fxC.title) (normTitle fxB.title) = true ∧
    fxB ∉ FetchFree.remove_duplicates [fxA, fxB, fxC] := by
  refine ⟨by decide, by decide, by decide, by decide⟩

/-- C9 (amended): both deduplicators return subsequences of their input
(each output article an unmodified input element, in original order).
In the exact-key variant of `fetch-news.py` exactly the earliest article
of each equal-key group is kept: output keys are pairwise distinct, every
input key is represented, and each kept article is the first of its key.
In the fuzzy variant of `fetch-news-free.py`, no kept article is judged
a duplicate of any earlier kept article — but a group of pairwise-similar
articles may keep a non-earliest member (similarity is not transitive),
as `claim_C9_counterexample` shows. -/
theorem claim_C9 :
    (∀ l, List.Sublist (FetchFree.remove_duplicates l) l) ∧
    (∀ l, List.Sublist (FetchMain.remove_duplicates l) l) ∧
    (∀ l, ((FetchMain.remove_duplicates l).map titleKey).Nodup) ∧
    (∀ l, ∀ a ∈ l, ∃ b ∈ FetchMain.remove_duplicates l,
      titleKey b = titleKey a) ∧
    (∀ l, ∀ b ∈ FetchMain.remove_duplicates l,
      l.find? (fun x => titleKey x == titleKey b) = some b) ∧
    (∀ l pre b post, FetchFree.remove_duplicates l = pre ++ b :: post →
      ∀ x ∈ pre, isDupOf (normTitle x.title) (normTitle b.title) = false) := by
  refine ⟨fun l => dedupGoFree_sublist l [], fun l => dedupGoMain_sublist l [],
    fun l => (dedupGoMain_keys l []).1, ?_, fun l => dedupGoMain_earliest l [],
    ?_⟩
  · intro l a ha
    rcases dedupGoMain_covers l [] a ha with h | h
    · simp at h
    · exact h
  · intro l pre b post h x hx
    exact dedupGoFree_no_earlier_dup l [] pre b post h (normTitle x.title)
      (by simpa using List.mem_map_of_mem (fun x => normTitle x.title) hx)

/-- C9 (witness): the amended theorem applied to the concrete input
`[fxA, fxB, fxC]`, whose deduplicated output is `[fxA, fxC]`: the kept
article `fxC` is not a duplicate of the earlier kept `fxA`, `fxA` is the
first article with its 50-character key, and the output is a subsequence
of the input. -/
theorem claim_C9_witness :
    isDupOf (normTitle fxA.title) (normTitle fxC.title) = false ∧
    [fxA, fxB, fxC].find? (fun x => titleKey x == titleKey fxA) = some fxA ∧
    List.Sublist (FetchFree.remove_duplicates [fxA, fxB, fxC]) [fxA, fxB, fxC] := by
  refine ⟨?_, ?_, ?_⟩
  · exact claim_C9.2.2.2.2.2 [fxA, fxB, fxC] [fxA] fxC [] (by decide) fxA
      (List.mem_cons_self _ _)
  · exact claim_C9.2.2.2.2.1 [fxA, fxB, fxC] fxA (by decide)
  · exact claim_C9.1 [fxA, fxB, fxC]

/-! ### Year-token rewriting (claim C8) -/

theorem replaceAllL_nil (tgt repl : List Char) : replaceAllL tgt repl [] = [] := rfl

theorem pt4_2024 (cs : List Char)
    (h : ['4'] <+: replaceAllL "2024".data "2025".data cs) : ['4'] <+: cs := by
  cases cs with
  | nil => rw [replaceAllL_nil] at h; simp at h
  | cons c cs' =>
    rw [replaceAllL_cons] at h
    split at h
    · simp [List.cons_prefix_cons] at h
    · rw [List.cons_prefix_cons] at h ⊢
      exact ⟨h.1, List.nil_prefix⟩

theorem pt3_2024 (cs : List Char)
    (h : ['2', '4'] <+: replaceAllL "2024".data "2025".data cs) :
    ['2', '4'] <+: cs := by
  cases cs with
  | nil => rw [replaceAllL_nil] at h; simp at h
  | cons c cs' =>
    rw [replaceAllL_cons] at h
    split at h
    · simp [List.cons_prefix_cons] at h
    · rw [List.cons_prefix_cons] at h ⊢
      exact ⟨h.1, pt4_2024 cs' h.2⟩

theorem pt2_2024 (cs : List Char)
    (h : ['0', '2', '4'] <+: replaceAllL "2024".data "2025".data cs) :
    ['0', '2', '4'] <+: cs := by
  cases cs with
  | nil => rw [replaceAllL_nil] at h; simp at h
  | cons c cs' =>
    rw [replaceAllL_cons] at h
    split at h
    · simp [List.cons_prefix_cons] at h
    · rw [List.cons_prefix_cons] at h ⊢
      exact ⟨h.1, pt3_2024 cs' h.2⟩

theorem no_2024_after_replace (s : List Char) :
    ¬ ("2024".data <:+: replaceAllL "2024".data "2025".data s) := by
  match s with
  | [] => rw [replaceAllL_nil]; simp
  | c :: cs =>
    rw [replaceAllL_cons]
    split
    · rename_i hpre
      intro hinf
      rcases List.infix_cons_iff.mp hinf with hp | hinf
      · simp [List.cons_prefix_cons] at hp
      rcases List.infix_cons_iff.mp hinf with hp | hinf
      · simp [List.cons_prefix_cons] at hp
      rcases List.infix_cons_iff.mp hinf with hp | hinf
      · simp [List.cons_prefix_cons] at hp
      rcases List.infix_cons_iff.mp hinf with hp | hinf
      · simp [List.cons_prefix_cons] at hp
      exact no_2024_after_replace _ hinf
    · rename_i hpre
      intro hinf
      rcases List.infix_cons_iff.mp hinf with hp | hinf
      · rw [List.cons_prefix_cons] at hp
        have h024 := pt2_2024 cs hp.2
        exact hpre ⟨by simp, by
          rw [List.cons_prefix_cons]
          exact ⟨hp.1.symm ▸ rfl, h024⟩⟩
      · exact no_2024_after_replace cs hinf
termination_by s.length
decreasing_by
  all_goals simp only [List.length_cons, List.length_drop]
  all_goals omega

theorem pt4_2023 (cs : List Char)
    (h : ['3'] <+: replaceAllL "2023".data "2025".data cs) : ['3'] <+: cs := by
  cases cs with
  | nil => rw [replaceAllL_nil] at h; simp at h
  | cons c cs' =>
    rw [replaceAllL_cons] at h
    split at h
    · simp [List.cons_prefix_cons] at h
    · rw [List.cons_prefix_cons] at h ⊢
      exact ⟨h.1, List.nil_prefix⟩

theorem pt3_2023 (cs : List Char)
    (h : ['2', '3'] <+: replaceAllL "2023".data "2025".data cs) :
    ['2', '3'] <+: cs := by
  cases cs with
  | nil => rw [replaceAllL_nil] at h; simp at h
  | cons c cs' =>
    rw [replaceAllL_cons] at h
    split at h
    · simp [List.cons_prefix_cons] at h
    · rw [List.cons_prefix_cons] at h ⊢
      exact ⟨h.1, pt4_2023 cs' h.2⟩

theorem pt2_2023 (cs : List Char)
    (h : ['0', '2', '3'] <+: replaceAllL "2023".data "2025".data cs) :
    ['0', '2', '3'] <+: cs := by
  cases cs with
  | nil => rw [replaceAllL_nil] at h; simp at h
  | cons c cs' =>
    rw [replaceAllL_cons] at h
    split at h
    · simp [List.cons_prefix_cons] at h
    · rw [List.cons_prefix_cons] at h ⊢
      exact ⟨h.1, pt3_2023 cs' h.2⟩

theorem no_2023_after_replace (s : List Char) :
    ¬ ("2023".data <:+: replaceAllL "2023".data "2025".data s) := by
  match s with
  | [] => rw [replaceAllL_nil]; simp
  | c :: cs =>
    rw [replaceAllL_cons]
    split
    · rename_i hpre
      intro hinf
      rcases List.infix_cons_iff.mp hinf with hp | hinf
      · simp [List.cons_prefix_cons] at hp
      rcases List.infix_cons_iff.mp hinf with hp | hinf
      · simp [List.cons_prefix_cons] at hp
      rcases List.infix_cons_iff.mp hinf with hp | hinf
      · simp [List.cons_prefix_cons] at hp
      rcases List.infix_cons_iff.mp hinf with hp | hinf
      · simp [List.cons_prefix_cons] at hp
      exact no_2023_after_replace _ hinf
    · rename_i hpre
      intro hinf
      rcases List.infix_cons_iff.mp hinf with hp | hinf
      · rw [List.cons_prefix_cons] at hp
        have h023 := pt2_2023 cs hp.2
        exact hpre ⟨by simp, by
          rw [List.cons_prefix_cons]
          exact ⟨hp.1.symm ▸ rfl, h023⟩⟩
      · exact no_2023_after_replace cs hinf
termination_by s.length
decreasing_by
  all_goals simp only [List.length_cons, List.length_drop]
  all_goals omega

/-- C8 (counterexample): with the run year 2025, an article whose
`published_at` contains both the year token `2024` (current year − 1) and
the year token `2023` (current year − 2) has only its `2024` rewritten by
`ensure_current_dates` — the `elif` never fires — so a `current year − 2`
token survives in the output, contradicting the claim that every such
token is rewritten to the current year. -/
theorem claim_C8_counterexample :
    FetchMain.ensure_current_dates fxToday [fxTwoYears] =
      [{ fxTwoYears with published_at := "2023-12-31T00:00:00Z 2025" }] ∧
    pyIn (toString (fxToday.year - 2)) "2023-12-31T00:00:00Z 2025" = true ∧
    pyIn (toString fxToday.year) "2023-12-31T00:00:00Z" = false := by
  refine ⟨by decide, by decide, by decide⟩

/-- C8 (amended): during aggregation in a 2025 run, `fetch-news.py`'s
`ensure_current_dates` rewrites every occurrence of the `current year − 1`
token (`2024`) to the current year when one is present — leaving no `2024`
in the result — and only otherwise rewrites every `current year − 2`
token (`2023`); the two rewrites never both fire, so a `2023` token
co-occurring with a `2024` token survives (see the counterexample).  The
`fetch-news-free.py` variant rewrites only the hard-coded token `2024`,
and its result never contains `2024`. -/
theorem claim_C8 (today : PyDateTime) (hy : today.year = 2025) (a : Article) :
    (pyIn "2024" a.published_at = true →
      FetchMain.ensure_current_dates today [a] =
        [{ a with published_at := pyReplace a.published_at "2024" "2025" }] ∧
      pyIn "2024" (pyReplace a.published_at "2024" "2025") = false) ∧
    (pyIn "2024" a.published_at = false → pyIn "2023" a.published_at = true →
      FetchMain.ensure_current_dates today [a] =
        [{ a with published_at := pyReplace a.published_at "2023" "2025" }] ∧
      pyIn "2023" (pyReplace a.published_at "2023" "2025") = false) ∧
    pyIn "2024" (yearFixFree a.published_at) = false := by
  have h1 : toString (today.year - 1) = "2024" := by rw [hy]; decide
  have h2 : toString (today.year - 2) = "2023" := by rw [hy]; decide
  have h3 : toString today.year = "2025" := by rw [hy]; decide
  refine ⟨?_, ?_, ?_⟩
  · intro hin
    constructor
    · rw [FetchMain.ensure_current_dates, List.map_cons, List.map_nil,
        h1, h2, h3, if_pos hin]
    · exact decide_eq_false (no_2024_after_replace a.published_at.data)
  · intro hnin hin
    constructor
    · rw [FetchMain.ensure_current_dates, List.map_cons, List.map_nil,
        h1, h2, h3, if_neg (by rw [hnin]; simp), if_pos hin]
    · exact decide_eq_false (no_2023_after_replace a.published_at.data)
  · rw [yearFixFree]
    by_cases hin : pyIn "2024" a.published_at = true
    · rw [if_pos hin]
      exact decide_eq_false (no_2024_after_replace a.published_at.data)
    · rw [if_neg hin]
      simpa using hin

/-- C8 (witness): the amended theorem evaluated on the concrete article
`fxTwoYears` in the 2025 run `fxToday`: its `2024` token is rewritten and
no `2024` remains, in either pipeline variant. -/
theorem claim_C8_witness :
    (FetchMain.ensure_current_dates fxToday [fxTwoYears] =
      [{ fxTwoYears with published_at := pyReplace fxTwoYears.published_at "2024" "2025" }] ∧
     pyIn "2024" (pyReplace fxTwoYears.published_at "2024" "2025") = false) ∧
    pyIn "2024" (yearFixFree fxTwoYears.published_at) = false :=
  ⟨(claim_C8 fxToday rfl fxTwoYears).1 (by decide),
   (claim_C8 fxToday rfl fxTwoYears).2.2⟩

/-! ### The stable descending sort (claims C5, C4, C1) -/

theorem listLtChar_asymm (x : List Char) :
    ∀ y, listLtChar x y = true → listLtChar y x = false := by
  induction x with
  | nil => intro y h; cases y <;> simp [listLtChar]
  | cons a as ih =>
    intro y h
    cases y with
    | nil => simp [listLtChar] at h
    | cons b bs =>
      rw [listLtChar] at h ⊢
      by_cases h1 : a.toNat < b.toNat
      · rw [if_neg (by omega), if_pos h1]
      · rw [if_neg h1] at h
        by_cases h2 : b.toNat < a.toNat
        · rw [if_pos h2] at h; cases h
        · rw [if_neg h2] at h
          rw [if_neg h2, if_neg h1]
          exact ih bs h

theorem listLtChar_negtrans (x : List Char) :
    ∀ y z, listLtChar x y = false → listLtChar y z = false →
      listLtChar x z = false := by
  induction x with
  | nil =>
    intro y z hxy hyz
    cases y with
    | nil => exact hyz
    | cons b bs => simp [listLtChar] at hxy
  | cons a as ih =>
    intro y z hxy hyz
    cases y with
    | nil => cases z with
      | nil => simp [listLtChar]
      | cons c cs => simp [listLtChar] at hyz
    | cons b bs =>
      cases z with
      | nil => simp [listLtChar]
      | cons c cs =>
        rw [listLtChar] at hxy hyz ⊢
        by_cases h1 : a.toNat < b.toNat
        · rw [if_pos h1] at hxy; cases hxy
        · by_cases h2 : b.toNat < c.toNat
          · rw [if_pos h2] at hyz; cases hyz
          · by_cases h3 : a.toNat < c.toNat
            · omega
            · rw [if_neg h3]
              by_cases h4 : c.toNat < a.toNat
              · rw [if_pos h4]
              · -- all three heads are equal
                rw [if_neg h4]
                rw [if_neg h1, if_neg (by omega)] at hxy
                rw [if_neg h2, if_neg (by omega)] at hyz
                exact ih bs cs hxy hyz

theorem pyStrLt_asymm (x y : String) (h : pyStrLt x y = true) :
    pyStrLt y x = false :=
  listLtChar_asymm x.data y.data h

theorem pyStrLt_negtrans (x y z : String) (hxy : pyStrLt x y = false)
    (hyz : pyStrLt y z = false) : pyStrLt x z = false :=
  listLtChar_negtrans x.data y.data z.data hxy hyz

theorem insertDescBy_perm {α κ : Type} (lt : κ → κ → Bool) (key : α → κ)
    (a : α) (l : List α) : List.Perm (insertDescBy lt key a l) (a :: l) := by
  induction l with
  | nil => exact List.Perm.refl _
  | cons b rest ih =>
    rw [insertDescBy]
    split
    · exact List.Perm.refl _
    · exact (ih.cons b).trans (List.Perm.swap a b rest)

theorem stableSortDescBy_perm {α κ : Type} (lt : κ → κ → Bool) (key : α → κ)
    (l : List α) : List.Perm (stableSortDescBy lt key l) l := by
  suffices h : ∀ acc, List.Perm (l.foldl (fun acc a => insertDescBy lt key a acc) acc)
      (acc ++ l) by
    simpa using h []
  induction l with
  | nil => intro acc; simp
  | cons a rest ih =>
    intro acc
    rw [List.foldl_cons]
    refine (ih (insertDescBy lt key a acc)).trans ?_
    have h1 : List.Perm (insertDescBy lt key a acc ++ rest) ((a :: acc) ++ rest) :=
      (insertDescBy_perm lt key a acc).append_right rest
    refine h1.trans ?_
    simpa using (@List.perm_middle _ a acc rest).symm

theorem insertDescBy_pairwise {α κ : Type} (lt : κ → κ → Bool) (key : α → κ)
    (hAsym : ∀ x y, lt x y = true → lt y x = false)
    (hNeg : ∀ x y z, lt x y = false → lt y z = false → lt x z = false)
    (a : α) (l : List α)
    (hl : List.Pairwise (fun x y => lt (key x) (key y) = false) l) :
    List.Pairwise (fun x y => lt (key x) (key y) = false)
      (insertDescBy lt key a l) := by
  induction l with
  | nil => simp [insertDescBy]
  | cons b rest ih =>
    rw [insertDescBy]
    rw [List.pairwise_cons] at hl
    split
    · rename_i hba
      rw [List.pairwise_cons]
      refine ⟨?_, List.pairwise_cons.mpr hl⟩
      intro x hx
      rcases List.mem_cons.mp hx with h1 | h2
      · rw [h1]; exact hAsym _ _ hba
      · exact hNeg _ _ _ (hAsym _ _ hba) (hl.1 x h2)
    · rename_i hba
      rw [List.pairwise_cons]
      refine ⟨?_, ih hl.2⟩
      intro x hx
      have hx' := (insertDescBy_perm lt key a rest).mem_iff.mp hx
      rcases List.mem_cons.mp hx' with h1 | h2
      · rw [h1]; simpa using hba
      · exact hl.1 x h2

theorem stableSortDescBy_pairwise {α κ : Type} (lt : κ → κ → Bool) (key : α → κ)
    (hAsym : ∀ x y, lt x y = true → lt y x = false)
    (hNeg : ∀ x y z, lt x y = false → lt y z = false → lt x z = false)
    (l : List α) :
    List.Pairwise (fun x y => lt (key x) (key y) = false)
      (stableSortDescBy lt key l) := by
  suffices h : ∀ acc, List.Pairwise (fun x y => lt (key x) (key y) = false) acc →
      List.Pairwise (fun x y => lt (key x) (key y) = false)
        (l.foldl (fun acc a => insertDescBy lt key a acc) acc) by
    exact h [] (List.Pairwise.nil)
  induction l with
  | nil => intro acc hacc; simpa using hacc
  | cons a rest ih =>
    intro acc hacc
    rw [List.foldl_cons]
    exact ih _ (insertDescBy_pairwise lt key hAsym hNeg a acc hacc)

theorem sortByDateDesc_perm (l : List Article) :
    List.Perm (sortByDateDesc l) l := by
  unfold sortByDateDesc
  exact stableSortDescBy_perm pyStrLt (fun a => a.published_at) l

theorem sortByDateDesc_sorted (l : List Article) :
    List.Pairwise
      (fun x y => pyStrLt x.published_at y.published_at = false)
      (sortByDateDesc l) := by
  unfold sortByDateDesc
  exact stableSortDescBy_pairwise pyStrLt (fun a => a.published_at)
    pyStrLt_asymm pyStrLt_negtrans l

/-- When at least five articles survive deduplication, the free pipeline
skips the fallback injection. -/
theorem fetchFree_no_fallback (today : PyDateTime) (fetched : List Article)
    (h : ¬ (sortByDateDesc ((FetchFree.remove_duplicates fetched).map
        (fixDateFree today))).length < 5) :
    FetchFree.fetch_all_news today fetched
      = (sortByDateDesc ((FetchFree.remove_duplicates fetched).map
          (fixDateFree today))).take 50 := by
  show ((if (sortByDateDesc ((FetchFree.remove_duplicates fetched).map
      (fixDateFree today))).length < 5
    then FetchFree.generate_sample_fallback today
      ++ sortByDateDesc ((FetchFree.remove_duplicates fetched).map (fixDateFree today))
    else sortByDateDesc ((FetchFree.remove_duplicates fetched).map
      (fixDateFree today))).take 50) = _
  rw [if_neg h]

/-- C5: the fetch-news.py feed is always capped at 40 and sorted in
descending `published_at` (string) order; the fetch-news-free.py feed is
capped at 50, but it is sorted only when the fallback injection does not
fire (at least five survivors of deduplication), because that pipeline
sorts before prepending the fallback articles. -/
theorem claim_C5 (today : PyDateTime) (fetched : List Article) :
    ((FetchMain.fetch_all today fetched).length ≤ 40
      ∧ List.Pairwise (fun x y => pyStrLt x.published_at y.published_at = false)
          (FetchMain.fetch_all today fetched))
    ∧ (FetchFree.fetch_all_news today fetched).length ≤ 50
    ∧ (5 ≤ (FetchFree.remove_duplicates fetched).length →
        List.Pairwise (fun x y => pyStrLt x.published_at y.published_at = false)
          (FetchFree.fetch_all_news today fetched)) := by
  refine ⟨⟨List.length_take_le _ _,
      (sortByDateDesc_sorted _).sublist (List.take_sublist _ _)⟩,
    List.length_take_le _ _, ?_⟩
  intro h
  have hlen : ¬ (sortByDateDesc ((FetchFree.remove_duplicates fetched).map
      (fixDateFree today))).length < 5 := by
    rw [(sortByDateDesc_perm _).length_eq, List.length_map]; omega
  rw [fetchFree_no_fallback today fetched hlen]
  exact (sortByDateDesc_sorted _).sublist (List.take_sublist _ _)

/-- C5 counterexample: with a single fetched article the free pipeline
prepends the five fallback articles to the already-sorted list, and the
resulting feed is not in descending `published_at` order. -/
theorem claim_C5_counterexample :
    ¬ List.Pairwise (fun x y => pyStrLt x.published_at y.published_at = false)
        (FetchFree.fetch_all_news fxToday [fxA]) := by decide

/-- C5 witness: with five mutually dissimilar articles the free feed is
sorted. -/
theorem claim_C5_witness :
    5 ≤ (FetchFree.remove_duplicates [fxA, fxD, fxE, fxF, fxG]).length ∧
    List.Pairwise (fun x y => pyStrLt x.published_at y.published_at = false)
      (FetchFree.fetch_all_news fxToday [fxA, fxD, fxE, fxF, fxG]) :=
  ⟨by decide, (claim_C5 fxToday [fxA, fxD, fxE, fxF, fxG]).2.2 (by decide)⟩

/-- C4: when fewer than five articles survive deduplication, each
pipeline adds its full synthetic fallback set, making the final count
exactly the survivor count plus the fallback-set size; in every case the
final feed is non-empty. -/
theorem claim_C4 (today : PyDateTime) (fetched : List Article) :
    ((FetchFree.remove_duplicates fetched).length < 5 →
      (FetchFree.fetch_all_news today fetched).length
        = (FetchFree.generate_sample_fallback today).length
          + (FetchFree.remove_duplicates fetched).length)
    ∧ ((FetchMain.remove_duplicates fetched).length < 5 →
      (FetchMain.fetch_all today fetched).length
        = (FetchMain.generate_current_articles today).length
          + (FetchMain.remove_duplicates fetched).length)
    ∧ FetchFree.fetch_all_news today fetched ≠ []
    ∧ FetchMain.fetch_all today fetched ≠ [] := by
  have hLf : (sortByDateDesc ((FetchFree.remove_duplicates fetched).map
      (fixDateFree today))).length = (FetchFree.remove_duplicates fetched).length := by
    rw [(sortByDateDesc_perm _).length_eq, List.length_map]
  have hgf : (FetchFree.generate_sample_fallback today).length = 5 := rfl
  have hEm : (FetchMain.ensure_current_dates today
      (FetchMain.remove_duplicates fetched)).length
      = (FetchMain.remove_duplicates fetched).length := List.length_map _ _
  have hgm : (FetchMain.generate_current_articles today).length = 5 := rfl
  refine ⟨?_, ?_, ?_, ?_⟩
  · intro h
    show ((if (sortByDateDesc ((FetchFree.remove_duplicates fetched).map
        (fixDateFree today))).length < 5
      then FetchFree.generate_sample_fallback today
        ++ sortByDateDesc ((FetchFree.remove_duplicates fetched).map (fixDateFree today))
      else sortByDateDesc ((FetchFree.remove_duplicates fetched).map
        (fixDateFree today))).take 50).length = _
    rw [if_pos (by omega), List.length_take, List.length_append, hLf, hgf]
    omega
  · intro h
    show ((sortByDateDesc (if (FetchMain.ensure_current_dates today
          (FetchMain.remove_duplicates fetched)).length < 5
        then FetchMain.generate_current_articles today
          ++ FetchMain.ensure_current_dates today (FetchMain.remove_duplicates fetched)
        else FetchMain.ensure_current_dates today
          (FetchMain.remove_duplicates fetched))).take 40).length = _
    rw [List.length_take, (sortByDateDesc_perm _).length_eq,
      if_pos (by omega), List.length_append, hEm, hgm]
    omega
  · apply List.ne_nil_of_length_pos
    show 0 < ((if (sortByDateDesc ((FetchFree.remove_duplicates fetched).map
        (fixDateFree today))).length < 5
      then FetchFree.generate_sample_fallback today
        ++ sortByDateDesc ((FetchFree.remove_duplicates fetched).map (fixDateFree today))
      else sortByDateDesc ((FetchFree.remove_duplicates fetched).map
        (fixDateFree today))).take 50).length
    rw [List.length_take]
    by_cases h5 : (sortByDateDesc ((FetchFree.remove_duplicates fetched).map
        (fixDateFree today))).length < 5
    · rw [if_pos h5, List.length_append, hgf]; omega
    · rw [if_neg h5]; omega
  · apply List.ne_nil_of_length_pos
    show 0 < ((sortByDateDesc (if (FetchMain.ensure_current_dates today
          (FetchMain.remove_duplicates fetched)).length < 5
        then FetchMain.generate_current_articles today
          ++ FetchMain.ensure_current_dates today (FetchMain.remove_duplicates fetched)
        else FetchMain.ensure_current_dates today
          (FetchMain.remove_duplicates fetched))).take 40).length
    rw [List.length_take, (sortByDateDesc_perm _).length_eq]
    by_cases h5 : (FetchMain.ensure_current_dates today
        (FetchMain.remove_duplicates fetched)).length < 5
    · rw [if_pos h5, List.length_append, hgm]; omega
    · rw [if_neg h5]; omega

/-- C4 witness: with no fetched articles both pipelines emit exactly
their five fallback articles. -/
theorem claim_C4_witness :
    ((FetchFree.remove_duplicates ([] : List Article)).length < 5 ∧
      (FetchFree.fetch_all_news fxToday []).length
        = (FetchFree.generate_sample_fallback fxToday).length
          + (FetchFree.remove_duplicates ([] : List Article)).length) ∧
    ((FetchMain.remove_duplicates ([] : List Article)).length < 5 ∧
      (FetchMain.fetch_all fxToday []).length
        = (FetchMain.generate_current_articles fxToday).length
          + (FetchMain.remove_duplicates ([] : List Article)).length) :=
  ⟨⟨by decide, (claim_C4 fxToday []).1 (by decide)⟩,
   ⟨by decide, (claim_C4 fxToday []).2.1 (by decide)⟩⟩

/-! ### Print/parse roundtrip for `isoformat` timestamps (claim C1) -/

theorem digitChar_ne_Z (n : Nat) : digitChar n ≠ 'Z' := by
  unfold digitChar
  split <;> decide

theorem digitChar_isDigit (n : Nat) : (digitChar n).isDigit = true := by
  unfold digitChar
  split <;> decide

theorem digVal_digitChar (n : Nat) (h : n ≤ 9) : digVal? (digitChar n) = some n := by
  interval_cases n <;> decide

theorem digitChar_toNat (n : Nat) (h : n ≤ 9) : (digitChar n).toNat = 48 + n := by
  interval_cases n <;> decide

theorem parse2_pad2 (n : Nat) (h : n ≤ 99) (rest : List Char) :
    parse2 (pad2 n ++ rest) = some (n, rest) := by
  show parse2 (digitChar (n / 10 % 10) :: digitChar (n % 10) :: rest) = some (n, rest)
  rw [parse2]
  rw [digVal_digitChar _ (by omega), digVal_digitChar _ (by omega)]
  show some (n / 10 % 10 * 10 + n % 10, rest) = some (n, rest)
  have : n / 10 % 10 * 10 + n % 10 = n := by omega
  rw [this]

theorem parse4_pad4 (n : Nat) (h : n ≤ 9999) (rest : List Char) :
    parse4 (pad4 n ++ rest) = some (n, rest) := by
  show parse4 (digitChar (n / 1000 % 10) :: digitChar (n / 100 % 10)
    :: digitChar (n / 10 % 10) :: digitChar (n % 10) :: rest) = some (n, rest)
  rw [parse4]
  rw [digVal_digitChar _ (by omega), digVal_digitChar _ (by omega),
    digVal_digitChar _ (by omega), digVal_digitChar _ (by omega)]
  show some (((n / 1000 % 10 * 10 + n / 100 % 10) * 10 + n / 10 % 10) * 10
    + n % 10, rest) = some (n, rest)
  have : ((n / 1000 % 10 * 10 + n / 100 % 10) * 10 + n / 10 % 10) * 10 + n % 10 = n := by
    omega
  rw [this]

theorem lit_cons (c : Char) (rest : List Char) : lit c (c :: rest) = some rest := by
  simp [lit]

theorem parseHMS_pad (h mi s : Nat) (hh : h ≤ 99) (hmi : mi ≤ 99) (hs : s ≤ 99)
    (rest : List Char) :
    parseHMS (pad2 h ++ ':' :: (pad2 mi ++ ':' :: (pad2 s ++ rest)))
      = some (h, mi, s, rest) := by
  simp only [parseHMS, parse2_pad2 h hh, parse2_pad2 mi hmi, parse2_pad2 s hs,
    Option.bind_eq_bind, Option.some_bind, lit_cons]
  rfl

theorem parseFrac_not_dot (c : Char) (l : List Char) (h : c ≠ '.') :
    parseFrac (c :: l) = some (0, c :: l) := by
  rw [parseFrac.eq_def]
  split
  · rename_i rest heq
    rw [List.cons_eq_cons] at heq
    exact absurd heq.1 h
  · rfl

theorem natOfDigits_pad6 (n : Nat) (h : n ≤ 999999) : natOfDigits (pad6 n) = n := by
  show natOfDigits [digitChar (n / 100000 % 10), digitChar (n / 10000 % 10),
    digitChar (n / 1000 % 10), digitChar (n / 100 % 10),
    digitChar (n / 10 % 10), digitChar (n % 10)] = n
  simp only [natOfDigits, List.foldl_cons, List.foldl_nil,
    digitChar_toNat _ (by omega : n / 100000 % 10 ≤ 9),
    digitChar_toNat _ (by omega : n / 10000 % 10 ≤ 9),
    digitChar_toNat _ (by omega : n / 1000 % 10 ≤ 9),
    digitChar_toNat _ (by omega : n / 100 % 10 ≤ 9),
    digitChar_toNat _ (by omega : n / 10 % 10 ≤ 9),
    digitChar_toNat _ (by omega : n % 10 ≤ 9)]
  omega

theorem pad6_length (n : Nat) : (pad6 n).length = 6 := rfl

theorem pad6_all_digits (n : Nat) : (pad6 n).all Char.isDigit = true := by
  simp [pad6, digitChar_isDigit]

theorem parseFrac_pad6 (n : Nat) (h : n ≤ 999999) (rest : List Char) :
    parseFrac ('.' :: (pad6 n ++ rest)) = some (n, rest) := by
  rw [parseFrac]
  have htake : (pad6 n ++ rest).take 6 = pad6 n := by
    rw [show (6 : Nat) = (pad6 n).length from rfl, List.take_left]
  have hdrop : (pad6 n ++ rest).drop 6 = rest := by
    rw [show (6 : Nat) = (pad6 n).length from rfl, List.drop_left]
  rw [htake, hdrop, pad6_length, pad6_all_digits]
  rw [if_pos (by decide), natOfDigits_pad6 n h]

theorem pad2_ne_Z (n : Nat) : ∀ c ∈ pad2 n, c ≠ 'Z' := by
  intro c hc
  rcases List.mem_cons.mp hc with h | h
  · rw [h]; exact digitChar_ne_Z _
  · rcases List.mem_cons.mp h with h2 | h2
    · rw [h2]; exact digitChar_ne_Z _
    · cases h2

theorem pad4_ne_Z (n : Nat) : ∀ c ∈ pad4 n, c ≠ 'Z' := by
  intro c hc
  simp only [pad4, List.mem_cons, List.not_mem_nil, or_false] at hc
  rcases hc with h | h | h | h <;> (rw [h]; exact digitChar_ne_Z _)

theorem pad6_ne_Z (n : Nat) : ∀ c ∈ pad6 n, c ≠ 'Z' := by
  intro c hc
  simp only [pad6, List.mem_cons, List.not_mem_nil, or_false] at hc
  rcases hc with h | h | h | h | h | h <;> (rw [h]; exact digitChar_ne_Z _)

/-- The naive `isoformat()` core never contains the character `Z`. -/
theorem isoCore_ne_Z (t : PyDateTime) (ha : t.aware = false) :
    ∀ c ∈ isoCore t, c ≠ 'Z' := by
  intro c hc
  unfold isoCore at hc
  rw [ha] at hc
  simp only [Bool.false_eq_true, if_false, List.append_nil, List.mem_append,
    List.mem_cons] at hc
  rcases hc with (h | h | h | h | h | h | h | h | h | h | h) | h
  · exact pad4_ne_Z _ _ h
  · rw [h]; decide
  · exact pad2_ne_Z _ _ h
  · rw [h]; decide
  · exact pad2_ne_Z _ _ h
  · rw [h]; decide
  · exact pad2_ne_Z _ _ h
  · rw [h]; decide
  · exact pad2_ne_Z _ _ h
  · rw [h]; decide
  · exact pad2_ne_Z _ _ h
  · by_cases hm : t.micro = 0
    · rw [if_pos hm] at h; cases h
    · rw [if_neg hm] at h
      rcases List.mem_cons.mp h with h2 | h2
      · rw [h2]; decide
      · exact pad6_ne_Z _ _ h2

/-- Replacing a single character that occurs only as the final element
replaces exactly that occurrence. -/
theorem replaceAllL_last_single (z : Char) (rep : List Char) :
    ∀ l : List Char, (∀ c ∈ l, c ≠ z) →
      replaceAllL [z] rep (l ++ [z]) = l ++ rep := by
  intro l
  induction l with
  | nil =>
    intro _
    rw [List.nil_append, List.nil_append, replaceAllL_cons]
    rw [if_pos ⟨by simp, List.prefix_refl _⟩]
    show rep ++ replGo [z] rep 0 [] = rep
    rw [replGo, List.append_nil]
  | cons c cs ih =>
    intro hne
    have hcz : c ≠ z := hne c (List.mem_cons_self _ _)
    rw [List.cons_append, replaceAllL_cons]
    rw [if_neg ?notpre]
    case notpre =>
      rintro ⟨-, hpre⟩
      rcases hpre with ⟨tl, htl⟩
      rw [List.cons_append] at htl
      exact hcz (List.cons_eq_cons.mp htl).1.symm
    rw [ih (fun d hd => hne d (List.mem_cons_of_mem _ hd))]
    rfl

theorem daysInMonth_le (y m : Nat) : daysInMonth y m ≤ 31 := by
  unfold daysInMonth
  split
  · split <;> omega
  · split <;> omega

theorem daysInMonth_pos (y m : Nat) : 1 ≤ daysInMonth y m := by
  unfold daysInMonth
  split
  · split <;> omega
  · split <;> omega

/-- Rewriting `Z -> +00:00` on `isoformat() + 'Z'` yields the aware
offset form. -/
theorem replace_isoZ (t : PyDateTime) (ha : t.aware = false) :
    pyReplace (isoZ t) "Z" "+00:00"
      = String.mk (isoCore t ++ ['+', '0', '0', ':', '0', '0']) := by
  show String.mk (replaceAllL ['Z'] ['+', '0', '0', ':', '0', '0']
    (isoCore t ++ ['Z'])) = _
  rw [replaceAllL_last_single 'Z' _ _ (isoCore_ne_Z t ha)]

/-- `fromisoformat` parses the printed aware form back to the original
fields, with `aware` set and offset `+00:00`. -/
theorem pyFromIso_core_off (t : PyDateTime) (hV : t.Valid) (ha : t.aware = false) :
    pyFromIso (String.mk (isoCore t ++ ['+', '0', '0', ':', '0', '0']))
      = some ⟨t.year, t.month, t.day, t.hour, t.minute, t.second, t.micro,
          true, 0⟩ := by
  obtain ⟨h1, h2, h3, h4, h5, h6, h7, h8, h9, h10⟩ := hV
  have hoff : parseOffIso ['+', '0', '0', ':', '0', '0'] = some (true, 0, []) := by
    decide
  have hsep : (decide (('T' : Char) = 'T') || decide (('T' : Char) = ' ')) = true := by
    decide
  have hmk : mkDT t.year t.month t.day t.hour t.minute t.second t.micro true 0
      = some ⟨t.year, t.month, t.day, t.hour, t.minute, t.second, t.micro,
          true, 0⟩ := by
    rw [mkDT, if_pos]
    simp only [Bool.and_eq_true, decide_eq_true_eq]
    exact ⟨⟨⟨⟨⟨⟨⟨⟨⟨h1, h2⟩, h3⟩, h4⟩, h5⟩, h6⟩, h7⟩, h8⟩, h9⟩, h10⟩
  simp only [pyFromIso, isoCore, ha, Bool.false_eq_true, if_false,
    List.append_nil, List.append_assoc, List.cons_append]
  by_cases hm : t.micro = 0
  · rw [hm] at hmk ⊢
    rw [if_pos rfl]
    simp only [List.nil_append,
      parse4_pad4 t.year (by omega), Option.bind_eq_bind, Option.some_bind, lit_cons,
      parse2_pad2 t.month (by omega), parse2_pad2 t.day (by have := daysInMonth_le t.year t.month; omega),
      parseHMS_pad t.hour t.minute t.second (by omega) (by omega) (by omega),
      parseFrac_not_dot '+' _ (by decide), hoff, hsep,
      decide_True, Bool.true_or, eq_self_iff_true, if_true, hmk]
  · rw [if_neg hm]
    simp only [List.cons_append, List.nil_append,
      parse4_pad4 t.year (by omega), Option.bind_eq_bind, Option.some_bind, lit_cons,
      parse2_pad2 t.month (by omega), parse2_pad2 t.day (by have := daysInMonth_le t.year t.month; omega),
      parseHMS_pad t.hour t.minute t.second (by omega) (by omega) (by omega),
      parseFrac_pad6 t.micro (by omega), hoff, hsep,
      decide_True, Bool.true_or, eq_self_iff_true, if_true, hmk]

theorem subHour_aware (t : PyDateTime) : (subHour t).aware = t.aware := by
  unfold subHour
  split
  · rfl
  split
  · rfl
  split <;> rfl

theorem subHours_aware (k : Nat) (t : PyDateTime) :
    (subHours k t).aware = t.aware := by
  induction k generalizing t with
  | zero => rfl
  | succ k ih => rw [subHours, ih, subHour_aware]

/-- One borrow step keeps a representable clock representable; the side
condition tracks that up to `k` further steps cannot underflow year 1. -/
theorem subHour_step (k : Nat) (hk : k ≤ 23) (t : PyDateTime) (hV : t.Valid)
    (h : 2 ≤ t.year ∨ (1 ≤ t.year ∧ k + 1 ≤ t.hour)) :
    (subHour t).Valid
      ∧ (2 ≤ (subHour t).year
        ∨ (1 ≤ (subHour t).year ∧ k ≤ (subHour t).hour)) := by
  obtain ⟨h1, h2, h3, h4, h5, h6, h7, h8, h9, h10⟩ := hV
  unfold subHour PyDateTime.Valid
  split
  · rename_i hh
    dsimp only
    refine ⟨⟨h1, h2, h3, h4, h5, h6, by omega, h8, h9, h10⟩, ?_⟩
    rcases h with h | ⟨ha', hb⟩
    · exact Or.inl h
    · exact Or.inr ⟨ha', by omega⟩
  rename_i hh
  have hy2 : 2 ≤ t.year := by
    rcases h with h | ⟨-, hb⟩
    · exact h
    · omega
  split
  · rename_i hd
    dsimp only
    exact ⟨⟨h1, h2, h3, h4, by omega, by omega, by omega, h8, h9, h10⟩, Or.inl hy2⟩
  split
  · rename_i hmo
    dsimp only
    refine ⟨⟨h1, h2, by omega, by omega, daysInMonth_pos _ _, le_refl _,
      by omega, h8, h9, h10⟩, Or.inl hy2⟩
  · dsimp only
    refine ⟨⟨by omega, by omega, by omega, by omega, by omega, ?_,
      by omega, h8, h9, h10⟩, Or.inr ⟨by omega, by omega⟩⟩
    show 31 ≤ daysInMonth (t.year - 1) 12
    unfold daysInMonth
    split
    · omega
    · split <;> omega

/-- Iterated borrows stay representable while the year cannot underflow. -/
theorem subHours_valid : ∀ (k : Nat) (t : PyDateTime), k ≤ 24 → t.Valid →
    (2 ≤ t.year ∨ (1 ≤ t.year ∧ k ≤ t.hour)) → (subHours k t).Valid := by
  intro k
  induction k with
  | zero => intro t _ hV _; exact hV
  | succ k ih =>
    intro t hk hV h
    rw [subHours]
    obtain ⟨hV', h'⟩ := subHour_step k (by omega) t hV h
    exact ih _ (by omega) hV' h'

/-- Every `isoformat()+Z` timestamp of a representable naive clock value
is non-empty, re-parses after the `Z -> +00:00` rewrite, and is never
judged later than the naive run clock (the aware/naive comparison raises,
modelled as `none`). -/
theorem isoZ_clause (t td : PyDateTime) (hV : t.Valid) (hat : t.aware = false)
    (htd : td.aware = false) :
    isoZ t ≠ "" ∧
    ∃ dt, pyFromIso (pyReplace (isoZ t) "Z" "+00:00") = some dt ∧
      pyCmpGt dt td ≠ some true := by
  refine ⟨?_, ⟨t.year, t.month, t.day, t.hour, t.minute, t.second, t.micro,
    true, 0⟩, ?_, ?_⟩
  · intro hz
    have h2 : isoCore t ++ ['Z'] = ([] : List Char) := congrArg String.data hz
    exact absurd (List.append_eq_nil.mp h2).2 (by simp)
  · rw [replace_isoZ t hat]
    exact pyFromIso_core_off t hV hat
  · rw [pyCmpGt, htd]
    simp

/-- The step-6 date repair of the free pipeline always leaves a
non-empty, re-parseable, never-future `published_at`. -/
theorem fixDateFree_published (today : PyDateTime) (hV : today.Valid)
    (hy : 2 ≤ today.year) (ha : today.aware = false) (b : Article) :
    (fixDateFree today b).published_at ≠ "" ∧
    ∃ dt, pyFromIso (pyReplace (fixDateFree today b).published_at "Z" "+00:00")
        = some dt ∧ pyCmpGt dt today ≠ some true := by
  have hsubV : (subHour today).Valid :=
    (subHour_step 0 (by omega) today hV (Or.inl hy)).1
  have hsubA : (subHour today).aware = false := by rw [subHour_aware, ha]
  have hclause := isoZ_clause (subHour today) today hsubV hsubA ha
  have hpub : (fixDateFree today b).published_at
      = clampFuture today (yearFixFree b.published_at) := rfl
  rw [hpub]
  set p := yearFixFree b.published_at with hp
  unfold clampFuture
  rcases hpi : pyFromIso (pyReplace p "Z" "+00:00") with _ | dt
  · simp only [hpi]
    exact hclause
  · rcases hg : pyCmpGt dt today with _ | g
    · simp only [hpi, hg]
      exact hclause
    · cases g
      · simp only [hpi, hg, Bool.false_eq_true, if_false]
        refine ⟨?_, dt, rfl, ?_⟩
        · intro h0
          rw [h0] at hpi
          have hnone : pyFromIso (pyReplace "" "Z" "+00:00") = none := by decide
          rw [hnone] at hpi
          exact Option.noConfusion hpi
        · rw [hg]
          simp
      · simp only [hpi, hg, if_true]
        exact hclause

/-- C1 (corrected): in `fetch-news-free.py` every aggregated article has
a non-empty `published_at` that re-parses under the pipeline's own
`Z -> +00:00` rewrite and is never judged strictly later than the run
clock; `fetch-news.py` performs no such clamp (see the counterexample). -/
theorem claim_C1 (today : PyDateTime) (fetched : List Article)
    (hV : today.Valid) (hy : 2 ≤ today.year) (ha : today.aware = false) :
    ∀ a ∈ FetchFree.fetch_all_news today fetched,
      a.published_at ≠ "" ∧
      ∃ dt, pyFromIso (pyReplace a.published_at "Z" "+00:00") = some dt ∧
        pyCmpGt dt today ≠ some true := by
  intro a hmem
  have hmem2 : a ∈ (if (sortByDateDesc ((FetchFree.remove_duplicates fetched).map
      (fixDateFree today))).length < 5
    then FetchFree.generate_sample_fallback today
      ++ sortByDateDesc ((FetchFree.remove_duplicates fetched).map (fixDateFree today))
    else sortByDateDesc ((FetchFree.remove_duplicates fetched).map
      (fixDateFree today))).take 50 := hmem
  have hmem3 := (List.take_sublist 50 _).subset hmem2
  have hsortmem : ∀ x : Article,
      x ∈ sortByDateDesc ((FetchFree.remove_duplicates fetched).map
        (fixDateFree today)) →
      x.published_at ≠ "" ∧
      ∃ dt, pyFromIso (pyReplace x.published_at "Z" "+00:00") = some dt ∧
        pyCmpGt dt today ≠ some true := by
    intro x hx
    have hx2 := (sortByDateDesc_perm _).subset hx
    rcases List.mem_map.mp hx2 with ⟨b, -, hb⟩
    rw [← hb]
    exact fixDateFree_published today hV hy ha b
  have hsample : ∀ x : Article, x ∈ FetchFree.generate_sample_fallback today →
      x.published_at ≠ "" ∧
      ∃ dt, pyFromIso (pyReplace x.published_at "Z" "+00:00") = some dt ∧
        pyCmpGt dt today ≠ some true := by
    intro x hx
    have hw : ∀ k : Nat, k ≤ 24 →
        isoZ (subHours k today) ≠ "" ∧
        ∃ dt, pyFromIso (pyReplace (isoZ (subHours k today)) "Z" "+00:00")
            = some dt ∧ pyCmpGt dt today ≠ some true := fun k hk =>
      isoZ_clause (subHours k today) today
        (subHours_valid k today hk hV (Or.inl hy))
        (by rw [subHours_aware, ha]) ha
    have h0 := isoZ_clause today today hV ha ha
    simp only [FetchFree.generate_sample_fallback, List.mem_cons,
      List.not_mem_nil, or_false] at hx
    rcases hx with rfl | rfl | rfl | rfl | rfl
    · exact h0
    · exact hw 2 (by omega)
    · exact hw 4 (by omega)
    · exact hw 6 (by omega)
    · exact hw 8 (by omega)
  by_cases h5 : (sortByDateDesc ((FetchFree.remove_duplicates fetched).map
      (fixDateFree today))).length < 5
  · rw [if_pos h5] at hmem3
    rcases List.mem_append.mp hmem3 with hs | hL
    · exact hsample a hs
    · exact hsortmem a hL
  · rw [if_neg h5] at hmem3
    exact hsortmem a hmem3

/-- C1 counterexample: `fetch-news.py` never clamps future dates.  A
fetched article dated 2026 passes through unchanged, sorts first, and its
timestamp parses to an instant strictly after the run clock. -/
theorem claim_C1_counterexample :
    ∃ a, (FetchMain.fetch_all fxToday [fxFuture]).head? = some a
      ∧ a.published_at = "2026-01-01T00:00:00Z"
      ∧ (pyFromIso (pyReplace a.published_at "Z" "+00:00")).any
          (fun dt => decide (toMicros fxToday < toMicros dt)) = true :=
  ⟨fxFuture, by decide, by decide, by decide⟩

/-- C1 witness: the free pipeline invariant at the fixture clock with one
fetched article. -/
theorem claim_C1_witness :
    fxToday.Valid ∧ 2 ≤ fxToday.year ∧ fxToday.aware = false ∧
    (∀ a ∈ FetchFree.fetch_all_news fxToday [fxA],
      a.published_at ≠ "" ∧
      ∃ dt, pyFromIso (pyReplace a.published_at "Z" "+00:00") = some dt ∧
        pyCmpGt dt fxToday ≠ some true) :=
  ⟨by decide, by decide, rfl, claim_C1 fxToday [fxA] (by decide) (by decide) rfl⟩

/-- C2 (code bug): `detect_trends` filters recent articles with an
unguarded `fromisoformat`, so one unparseable `published_at` aborts the
whole call — and with it `process_all`'s analytics stage — although the
same batch is fine for the guarded `generate_analytics`; the same call
without the bad article succeeds. -/
theorem claim_C2 :
    ProcessData.detect_trends fxToday [fxGood, fxBad] = Except.error ()
    ∧ (ProcessData.detect_trends fxToday [fxGood]).isOk = true
    ∧ (ProcessData.generate_analytics [fxGood, fxBad]).isOk = true
    ∧ ProcessData.process_analytics_stage fxToday [fxGood, fxBad]
        = Except.error () :=
  ⟨rfl, rfl, rfl, rfl⟩

/-- C3 (code bug): on text containing no sentiment keyword,
`analyze_sentiment` returns the bare number `0` instead of a
`SentimentResult` record, and subscripting that result (as
`generate_analytics` does unguarded) raises, aborting the analytics. -/
theorem claim_C3 :
    ProcessData.analyze_sentiment "markets open in lagos today"
      = ProcessData.SentimentReturn.num 0
    ∧ ProcessData.getScore
        (ProcessData.analyze_sentiment "markets open in lagos today")
      = Except.error ()
    ∧ ProcessData.generate_analytics [fxNeutral] = Except.error () :=
  ⟨rfl, rfl, rfl⟩

/-- C7 (corrected): the RSS and Google News normalizers drop every entry
whose cleaned title or url is empty, and the web-scrape link filter only
keeps anchors with non-empty (length > 20) text; but the Twitter/Nitter
normalizer builds its article unconditionally (see the counterexample). -/
theorem claim_C7 (srcName srcCat u text href n c : String)
    (today : PyDateTime) (e : RawEntry) :
    ((clean_text (e.title.getD "") = "" ∨ FetchFree.rssUrl e = "") →
      FetchFree.fetch_rss_entry srcName srcCat today e = none)
    ∧ ((clean_text (e.title.getD "") = "" ∨ e.link.getD "" = "") →
      FetchFree.fetch_google_entry today e = none)
    ∧ (∀ p : String × String, FetchFree.scrape_keep u text href = some p →
      (FetchFree.scrape_article n c today p).title ≠ "") := by
  refine ⟨?_, ?_, ?_⟩
  · intro h
    simp only [FetchFree.fetch_rss_entry]
    split
    · rfl
    · rw [if_neg]
      rintro ⟨hT, hU⟩
      rcases h with h | h
      · exact hT h
      · exact hU h
  · intro h
    simp only [FetchFree.fetch_google_entry]
    split
    · rfl
    · rw [if_neg]
      rintro ⟨hT, hU⟩
      rcases h with h | h
      · exact hT h
      · exact hU h
  · intro p hp
    unfold FetchFree.scrape_keep at hp
    split at hp
    · rename_i hcond
      rw [Bool.and_eq_true, decide_eq_true_eq] at hcond
      have hlen : text.length > 20 := hcond.1
      have hp2 : (text, if href.startsWith "http" then href
          else u ++ href) = p := Option.some.inj hp
      have ht : p.1 = text := by rw [← hp2]
      show p.1 ≠ ""
      rw [ht]
      intro h0
      rw [h0] at hlen
      exact absurd hlen (by decide)
    · exact Option.noConfusion hp

/-- C7 counterexample: a Nitter entry with no title yields an article
with an empty title, and that article reaches the aggregated feed. -/
theorem claim_C7_counterexample :
    (FetchFree.fetch_nitter_entry "econ" fxToday fxEntryNoTitle).title = ""
    ∧ ∃ a ∈ FetchFree.fetch_all_news fxToday
        [FetchFree.fetch_nitter_entry "econ" fxToday fxEntryNoTitle],
      a.title = "" := by
  refine ⟨by decide, by decide⟩

/-- C7 witness: a title-less entry is dropped by the RSS and Google News
normalizers. -/
theorem claim_C7_witness :
    (clean_text (fxEntryNoTitle.title.getD "") = ""
      ∨ FetchFree.rssUrl fxEntryNoTitle = "") ∧
    FetchFree.fetch_rss_entry "s" "c" fxToday fxEntryNoTitle = none ∧
    FetchFree.fetch_google_entry fxToday fxEntryNoTitle = none :=
  ⟨Or.inl (by decide),
   (claim_C7 "s" "c" "" "" "" "" "" fxToday fxEntryNoTitle).1 (Or.inl (by decide)),
   (claim_C7 "s" "c" "" "" "" "" "" fxToday fxEntryNoTitle).2.1 (Or.inl (by decide))⟩
